import Mathlib

/-!
Verification of the meshagent document core: a shallow embedding of the
schema registry, document tree, local mutation gateway, delta merge
engine and document lifecycle manager, translated from the TypeScript
sources (`src/schema` / sync-client.ts, `src/document` / agent.ts,
sync-client.ts `SyncClient`), together with theorems checking the
specification's claims about them.

Conventions of the embedding:
* JavaScript objects become insertion-ordered association lists
  (`List (String × Json)`); `obj[k] = v` keeps the position of an
  existing key and appends a fresh one, as JS does.
* JavaScript strings become `List Char` where character arithmetic
  matters (text runs); `str.slice` becomes `jsSliceFrom`/`jsSliceTo`
  with the same clamping behaviour.
* Thrown exceptions become `Except` errors.  All claims checked below
  concern either non-throwing executions or the fact that a call
  throws, never the partially mutated state left behind by a throw.
* `i32` truncation `x | 0` in the source is the identity on the integer
  ranges reachable here and is dropped.
-/

set_option maxHeartbeats 1600000

namespace Meshagent

/-- JSON values, the payload type of attribute maps and wire messages. -/
inductive Json where
  | null
  | bool (b : Bool)
  | num (n : Int)
  | str (s : String)
  | arr (xs : List Json)
  | obj (fields : List (String × Json))

/-- Reads `o[k]` from a JS-object field list: the first binding wins. -/
def objGet (fields : List (String × Json)) (k : String) : Option Json :=
  (fields.find? (fun p => p.1 == k)).map Prod.snd

/-- JS assignment `o[k] = v`: update an existing key in place, else append. -/
def objSet (fields : List (String × Json)) (k : String) (v : Json) : List (String × Json) :=
  match fields with
  | [] => [(k, v)]
  | (k', v') :: rest =>
    if k' == k then (k', v) :: rest else (k', v') :: objSet rest k v

/-- JS `delete o[k]`: drop every binding of the key. -/
def objDelete (fields : List (String × Json)) (k : String) : List (String × Json) :=
  fields.filter (fun p => p.1 != k)

/-- Shallow merge `{...a, ...b}` / `Object.assign(a, b)`: keys of `b` override. -/
def objMerge (a b : List (String × Json)) : List (String × Json) :=
  b.foldl (fun acc p => objSet acc p.1 p.2) a

/-- JS truthiness of a JSON value (`if (x)`). -/
def jsTruthy : Json → Bool
  | .null => false
  | .bool b => b
  | .num n => n != 0
  | .str s => s != ""
  | .arr _ => true
  | .obj _ => true

/-- JS `str.slice(start)` over code-unit lists, with negative-index clamping. -/
def jsSliceFrom (s : List Char) (start : Int) : List Char :=
  if start < 0 then s.drop (s.length + start).toNat else s.drop start.toNat

/-- JS `str.slice(0, stop)` over code-unit lists, with negative-index clamping. -/
def jsSliceTo (s : List Char) (stop : Int) : List Char :=
  if stop < 0 then s.take (s.length + stop).toNat else s.take stop.toNat

/-- JS `Array.prototype.splice(start, deleteCount, ...items)`, returning the
new array: both indices are clamped exactly as in ECMAScript. -/
def jsSplice {α : Type} (l : List α) (start deleteCount : Int) (items : List α) : List α :=
  let len : Int := l.length
  let actualStart : Nat := if start < 0 then (len + start).toNat else min start.toNat l.length
  let actualDelete : Nat := min deleteCount.toNat (l.length - actualStart)
  l.take actualStart ++ items ++ l.drop (actualStart + actualDelete)

/-! ## Schema registry (sync-client.ts: SimpleValue, ElementProperty,
ValueProperty, ChildProperty, ElementType, MeshSchema) -/

/-- Scalar attribute types (`SimpleValue` enum). -/
inductive SimpleValue where
  | number
  | string
  | nullValue
  | boolean
  deriving DecidableEq, Repr

/-- Wire name of a `SimpleValue` (the enum's string value). -/
def SimpleValue.toStr : SimpleValue → String
  | .number => "number"
  | .string => "string"
  | .nullValue => "null"
  | .boolean => "boolean"

/-- `SimpleValue.fromString`: partial inverse of the wire name. -/
def SimpleValue.fromString (val : String) : Option SimpleValue :=
  if val = "number" then some .number
  else if val = "string" then some .string
  else if val = "null" then some .nullValue
  else if val = "boolean" then some .boolean
  else none

/-- A property of an element type: either a scalar `ValueProperty` or the
`ChildProperty` listing the admissible child tags. -/
inductive ElementProperty where
  | value (name : String) (description : Option String) (type : SimpleValue)
      (enumValues : Option (List Json)) (required : Bool)
  | child (name : String) (description : Option String)
      (childTagNames : List String) (ordered : Bool)

/-- Name of a property. -/
def ElementProperty.name : ElementProperty → String
  | .value n _ _ _ _ => n
  | .child n _ _ _ => n

/-- Whether a property is the child property. -/
def ElementProperty.isChild : ElementProperty → Bool
  | .value .. => false
  | .child .. => true

/-- `ChildProperty.isTagAllowed`. -/
def ElementProperty.isTagAllowed : ElementProperty → String → Bool
  | .value .., _ => false
  | .child _ _ tags _, t => tags.contains t

/-- An element type: tag name, optional description, ordered property list. -/
structure ElementType where
  tagName : String
  description : Option String
  properties : List ElementProperty

/-- Validation and construction errors of the schema layer
(`MeshSchemaValidationException` and the generic `Error` throws). -/
inductive SchemaError where
  | duplicateChildProperty (tag : String)
  | duplicateProperty (name : String)
  | duplicateTag (tag : String)
  | rootNotFound (tag : String)
  | elementNotFound (tag : String)
  | propertyNotFound (name : String)
  | invalidJson (msg : String)
  deriving DecidableEq, Repr

/-- The `ElementType` constructor: rejects a second `ChildProperty` and
duplicate property names while building the lookup table. -/
def mkElementType (tagName : String) (description : Option String)
    (properties : List ElementProperty) : Except SchemaError ElementType := do
  let rec check (seenNames : List String) (seenChild : Bool) :
      List ElementProperty → Except SchemaError Unit
    | [] => .ok ()
    | p :: rest => do
      if p.isChild && seenChild then
        throw (.duplicateChildProperty tagName)
      if seenNames.contains p.name then
        throw (.duplicateProperty p.name)
      check (p.name :: seenNames) (seenChild || p.isChild) rest
  check [] false properties
  .ok { tagName, description, properties }

/-- `ElementType.childPropertyName`: name of the (unique) child property. -/
def ElementType.childPropertyName (t : ElementType) : Option String :=
  (t.properties.find? ElementProperty.isChild).map ElementProperty.name

/-- `ElementType.property(name)`: lookup, throwing when absent. -/
def ElementType.property (t : ElementType) (name : String) : Except SchemaError ElementProperty :=
  match t.properties.find? (fun p => p.name == name) with
  | some p => .ok p
  | none => throw (.propertyNotFound name)

/-- A schema: a root tag plus the declared element types, in declaration
order (`elementsByTagName` is recovered by first-match lookup since
construction rejects duplicate tags). -/
structure MeshSchema where
  rootTagName : String
  elements : List ElementType

/-- `MeshSchema.element(name)`: lookup in `elementsByTagName`, throwing
`Element not found` when the tag was not declared. -/
def MeshSchema.element (s : MeshSchema) (name : String) : Except SchemaError ElementType :=
  match s.elements.find? (fun t => t.tagName == name) with
  | some t => .ok t
  | none => throw (.elementNotFound name)

/-- `ChildProperty.validate` / `ValueProperty.validate`: a child property
requires each referenced tag to resolve; a value property checks nothing. -/
def ElementProperty.validate (s : MeshSchema) : ElementProperty → Except SchemaError Unit
  | .value .. => .ok ()
  | .child _ _ tags _ =>
    tags.foldlM (fun _ t => do let _ ← s.element t; .ok ()) ()

/-- `ElementType.validate`: validates each property against the schema. -/
def ElementType.validate (t : ElementType) (s : MeshSchema) : Except SchemaError Unit :=
  t.properties.foldlM (fun _ p => p.validate s) ()

/-- The `MeshSchema` constructor: builds `elementsByTagName` rejecting
duplicate tags, requires the root tag to be declared, then runs
`validate()` (which resolves every child-property reference). -/
def mkMeshSchema (rootTagName : String) (elements : List ElementType) :
    Except SchemaError MeshSchema := do
  let rec checkTags (seen : List String) : List ElementType → Except SchemaError Unit
    | [] => .ok ()
    | t :: rest => do
      if seen.contains t.tagName then
        throw (.duplicateTag t.tagName)
      checkTags (t.tagName :: seen) rest
  checkTags [] elements
  let s : MeshSchema := { rootTagName, elements }
  if (elements.find? (fun t => t.tagName == rootTagName)).isNone then
    throw (.rootNotFound rootTagName)
  elements.foldlM (fun _ t => t.validate s) ()
  .ok s

/-- `MeshSchema.root`: the root element type (present on validated schemas). -/
def MeshSchema.root (s : MeshSchema) : Option ElementType :=
  s.elements.find? (fun t => t.tagName == s.rootTagName)

/-! ## Schema serialization (toJson / fromJson) -/

/-- The ref path head `#/$defs/` used by the wire format. -/
def defsRefHead : List Char := "#/$defs/".data

/-- JS `s.startsWith(pat)` over code-unit lists. -/
def jsStartsWith (s pat : List Char) : Bool := s.take pat.length == pat

/-- `refStr.startsWith("#/$defs/") ? refStr.substring(8) : refStr`, the tag
extraction applied to every `$ref` and to `$root_tag_ref`. -/
def stripDefsRef (refStr : String) : String :=
  if jsStartsWith refStr.data defsRefHead then String.mk (refStr.data.drop defsRefHead.length)
  else refStr

/-- Inner JSON value of `ValueProperty.toJson` / `ChildProperty.toJson`.
The TS builds `{[name]: propertyJson}` and the caller immediately reads
`pJson[name]` back; this is that `propertyJson`. -/
def ElementProperty.toJsonVal : ElementProperty → Json
  | .value _ description type enumValues required =>
    let propertyJson : List (String × Json) :=
      match enumValues with
      | some evs => [("type", .str type.toStr), ("enum", .arr evs)]
      | none =>
        if required then [("type", .str type.toStr)]
        else [("type", .arr [.str type.toStr, .str "null"])]
    let propertyJson :=
      match description with
      | some d => propertyJson ++ [("description", .str d)]
      | none => propertyJson
    .obj propertyJson
  | .child _ description childTagNames ordered =>
    let base : List (String × Json) :=
      match description with
      | some d => [("description", .str d)]
      | none => []
    if ordered then
      .obj (base ++ [("type", .str "array"),
        ("prefixItems", .arr (childTagNames.map
          (fun p => .obj [("$ref", .str ("#/$defs/" ++ p))]))),
        ("items", .bool false)])
    else
      .obj (base ++ [("type", .str "array"),
        ("items", .obj [("anyOf", .arr (childTagNames.map
          (fun p => .obj [("$ref", .str ("#/$defs/" ++ p))])))])])

/-- `ElementProperty.toJson`: the single-key object `{[name]: propertyJson}`. -/
def ElementProperty.toJson (p : ElementProperty) : Json :=
  .obj [(p.name, p.toJsonVal)]

/-- `ElementType.toJson`.  The TS writes `description: this._description`
unconditionally; a JS object key holding `undefined` is observationally
absent to the reader (`json["description"]`), so the embedding omits the
key when there is no description. -/
def ElementType.toJson (t : ElementType) : Json :=
  let props := t.properties.foldl (fun acc p => objSet acc p.name p.toJsonVal) []
  let requiredNames := t.properties.map (fun p => Json.str p.name)
  .obj ([("type", .str "object"), ("additionalProperties", .bool false)]
    ++ (match t.description with | some d => [("description", Json.str d)] | none => [])
    ++ [("required", .arr [.str t.tagName]),
        ("properties", .obj [(t.tagName,
          .obj [("type", .str "object"), ("additionalProperties", .bool false),
                ("required", .arr requiredNames), ("properties", .obj props)])])])

/-- Extracts the tag of one `{$ref: "#/$defs/tag"}` object.  A missing or
non-string `$ref` raises a `TypeError` at `refStr.startsWith` in the TS;
both become errors here. -/
def parseRefTag (j : Json) : Except SchemaError String :=
  match j with
  | .obj kvs =>
    match objGet kvs "$ref" with
    | some (.str refStr) => .ok (stripDefsRef refStr)
    | _ => throw (.invalidJson "$ref must be a string")
  | _ => throw (.invalidJson "$ref must be a string")

/-- The `prefixItems` / `items.anyOf` arrays of a child property.  The TS
iterates the value with `for..of`; a non-array is not iterable over
objects and raises, which becomes an error here. -/
def parseChildTags (items : Json) : Except SchemaError (List String) :=
  match items with
  | .arr xs => xs.mapM parseRefTag
  | _ => throw (.invalidJson "expected an array of refs")

/-- Coerces a JSON value used as a string by the TS (`x as string`). -/
def jsonAsStr : Json → Option String
  | .str s => some s
  | _ => none

/-- One iteration of the property loop of `ElementType.fromJson`.  The TS
performs no type check on the property value: every malformed shape ends
in a thrown error (`Invalid value type`, `Invalid array type` or a
`TypeError`), all modelled as `Except` errors.  A non-string
`description` or a truthy non-array `enum` would be carried through
untyped by the TS; neither is producible by `toJson`, and the embedding
reads them as absent. -/
def parsePropertyJson (propName : String) (pVal : Json) : Except SchemaError ElementProperty := do
  let pMap ← match pVal with
    | .obj kvs => .ok kvs
    | _ => throw (.invalidJson "Invalid value type")
  let propDescription := match objGet pMap "description" with
    | some (.str d) => some d
    | _ => none
  let pType := objGet pMap "type"
  let parsed : Option String × Bool :=
    match pType with
    | some (.arr (x :: _)) => (jsonAsStr x, false)
    | some (.arr []) => (none, true)
    | some v => (jsonAsStr v, true)
    | none => (none, true)
  let pTypeValue := parsed.1
  let required := parsed.2
  if pTypeValue = some "array" then
    match objGet pMap "prefixItems" with
    | some pi =>
      if jsTruthy pi then do
        let childTagNames ← parseChildTags pi
        .ok (.child propName propDescription childTagNames true)
      else parseUnordered propName propDescription pMap
    | none => parseUnordered propName propDescription pMap
  else
    match pTypeValue.bind SimpleValue.fromString with
    | some valType =>
      let enumVal := match objGet pMap "enum" with
        | some (.arr xs) => some xs
        | _ => none
      .ok (.value propName propDescription valType enumVal required)
    | none => throw (.invalidJson "Invalid value type")
where
  /-- The `items.anyOf` branch: requires a truthy object `items` carrying a
  truthy `anyOf`, else `Invalid array type encountered`. -/
  parseUnordered (propName : String) (propDescription : Option String)
      (pMap : List (String × Json)) : Except SchemaError ElementProperty :=
    match objGet pMap "items" with
    | some (.obj itemKvs) =>
      match objGet itemKvs "anyOf" with
      | some ao =>
        if jsTruthy ao then do
          let childTagNames ← parseChildTags ao
          .ok (.child propName propDescription childTagNames false)
        else throw (.invalidJson "Invalid array type encountered")
      | none => throw (.invalidJson "Invalid array type encountered")
    | _ => throw (.invalidJson "Invalid array type encountered")

/-- `ElementType.fromJson`.  The first entry of the `properties` object is
the tag name; its `properties` sub-object holds the property list, parsed
in iteration order and passed to the validating constructor. -/
def ElementType.fromJson (json : Json) : Except SchemaError ElementType := do
  let kvs ← match json with
    | .obj kvs => .ok kvs
    | _ => throw (.invalidJson "Invalid schema json: no properties found")
  let description := match objGet kvs "description" with
    | some (.str d) => some d
    | _ => none
  let propertiesMap ← match objGet kvs "properties" with
    | some (.obj pm) => .ok pm
    | _ => throw (.invalidJson "Invalid schema json: no properties found")
  match propertiesMap with
  | [] => throw (.invalidJson "Invalid schema json: no properties found")
  | (tagName, typeJson) :: _ => do
    let typeKvs ← match typeJson with
      | .obj tk => .ok tk
      | _ => throw (.invalidJson "typeJson must be an object")
    let innerProps ← match objGet typeKvs "properties" with
      | some (.obj ip) => .ok ip
      | _ => throw (.invalidJson "typeJson must be an object")
    let resultProps ← innerProps.mapM (fun p => parsePropertyJson p.1 p.2)
    mkElementType tagName description resultProps

/-- `MeshSchema.toJson`: `$root_tag_ref`, `$defs` keyed by tag, then the
root element's own serialization merged into the top level.  The TS
dereferences `this.root` unconditionally; a root-less schema value (which
the validating constructor can never produce) would crash there, and is
given the empty merge here. -/
def MeshSchema.toJson (s : MeshSchema) : Json :=
  let defs := s.elements.foldl (fun acc t => objSet acc t.tagName t.toJson) []
  let result : List (String × Json) :=
    [("$root_tag_ref", Json.str ("#/$defs/" ++ s.rootTagName)), ("$defs", Json.obj defs)]
  let rootElementJson : List (String × Json) :=
    match s.root with
    | some rt => match rt.toJson with | .obj kvs => kvs | _ => []
    | none => []
  .obj (rootElementJson.foldl (fun acc p => objSet acc p.1 p.2) result)

/-- `MeshSchema.fromJson`: strips the `$root_tag_ref` pointer, parses every
value of `$defs` as an element type, and runs the validating constructor. -/
def MeshSchema.fromJson (json : Json) : Except SchemaError MeshSchema := do
  let kvs ← match json with
    | .obj kvs => .ok kvs
    | _ => throw (.invalidJson "schema json must be an object")
  let rootTagRef ← match objGet kvs "$root_tag_ref" with
    | some (.str r) => .ok r
    | _ => throw (.invalidJson "missing root tag ref")
  let rootTagName := stripDefsRef rootTagRef
  let defs ← match objGet kvs "$defs" with
    | some (.obj d) => .ok d
    | _ => throw (.invalidJson "missing defs")
  let elements ← defs.mapM (fun p => ElementType.fromJson p.2)
  mkMeshSchema rootTagName elements

/-! ## Document tree (agent.ts: RuntimeDocument, Node, Element, TextElement) -/

/-- A text run: a span of code units plus its attribute map. -/
structure Run where
  insert : List Char
  attributes : List (String × Json)

/-- A tree node: an `Element` (tag, attributes, ordered children) or a
`TextElement` (run list).  The TS parent back-reference is non-owning and
only read by `createChildElementAfter`, whose embedding receives the
parent id explicitly, so it is not stored. -/
inductive Node where
  | element (tagName : String) (attributes : List (String × Json)) (children : List Node)
  | text (delta : List Run)

/-- A decoded node payload as carried by an insert operation: the
`{element: {tagName, attributes, children}}` / `{text: {delta}}` shapes
consumed by `RuntimeDocument._createNode`. -/
inductive NodeSpec where
  | element (tagName : String) (attributes : List (String × Json)) (children : List NodeSpec)
  | text (delta : List Run)

/-- Errors thrown while applying an authoritative change message:
explicit throws of `receiveChanges` / `_createNode` plus the JS
`TypeError`s raised by dereferencing `undefined`. -/
inductive MergeError where
  | targetNotFound (id : Option String)
  | notATextNode (tagName : String)
  | unsupportedNodeType
  | schemaError (e : SchemaError)
  | typeError (msg : String)

mutual

/-- `RuntimeDocument._createNode`: recursively materializes a node spec,
resolving each element tag against the schema (which throws on an
undeclared tag). -/
def createNode (schema : MeshSchema) : NodeSpec → Except MergeError Node
  | .element tagName attributes children => do
    match schema.element tagName with
    | .error e => throw (.schemaError e)
    | .ok _ => do
      let cs ← createNodeList schema children
      .ok (.element tagName attributes cs)
  | .text delta => .ok (.text delta)

/-- Materializes a list of child specs in order (the `_createNode` child loop). -/
def createNodeList (schema : MeshSchema) : List NodeSpec → Except MergeError (List Node)
  | [] => .ok []
  | c :: cs => do
    let n ← createNode schema c
    let ns ← createNodeList schema cs
    .ok (n :: ns)

end

/-- `Element.getAttribute`. -/
def Node.getAttribute : Node → String → Option Json
  | .element _ attrs _, name => objGet attrs name
  | .text _, _ => none

/-- JS `===` between the requested id (`string | undefined`) and a node's
`$id` attribute value: `undefined === undefined` holds, a string only
equals the same string. -/
def idMatches (requested : Option String) (v : Option Json) : Bool :=
  match requested, v with
  | none, none => true
  | some s, some (.str t) => s == t
  | _, _ => false

mutual

/-- `Element.getNodeByID`: depth-first, parent-before-children walk that
compares the requested id against each element's `$id`; text children are
skipped (`child instanceof Element`). -/
def getNodeByID (n : Node) (id : Option String) : Option Node :=
  match n with
  | .text _ => none
  | .element tag attrs children =>
    if idMatches id (objGet attrs "$id") then some (.element tag attrs children)
    else getNodeByIDList children id

/-- First-match search over a child list, in order. -/
def getNodeByIDList (children : List Node) (id : Option String) : Option Node :=
  match children with
  | [] => none
  | c :: cs =>
    match getNodeByID c id with
    | some f => some f
    | none => getNodeByIDList cs id

end

mutual

/-- Rewrites the first node matched by `getNodeByID`'s walk with `f`,
mirroring the TS pattern of looking a node up and mutating it in place. -/
def applyAtNode (f : Node → Except MergeError Node) (id : Option String) (n : Node) :
    Option (Except MergeError Node) :=
  match n with
  | .text _ => none
  | .element tag attrs children =>
    if idMatches id (objGet attrs "$id") then some (f (.element tag attrs children))
    else
      match applyAtList f id children with
      | none => none
      | some (.error e) => some (.error e)
      | some (.ok cs) => some (.ok (.element tag attrs cs))

/-- Rewrites the first matching node inside a child list. -/
def applyAtList (f : Node → Except MergeError Node) (id : Option String) (children : List Node) :
    Option (Except MergeError (List Node)) :=
  match children with
  | [] => none
  | c :: cs =>
    match applyAtNode f id c with
    | some (.error e) => some (.error e)
    | some (.ok c') => some (.ok (c' :: cs))
    | none =>
      match applyAtList f id cs with
      | some (.error e) => some (.error e)
      | some (.ok cs') => some (.ok (c :: cs'))
      | none => none

end

/-! ## Delta merge engine (RuntimeDocument.receiveChanges) -/

/-- One element-stream operation record: any of the `retain`, `insert`,
`delete` keys may be present (`retain` is honoured first, then `insert`,
else `delete`, as in the source's if / if-else chain). -/
structure ElementDelta where
  retain : Option Int := none
  insert : Option (List NodeSpec) := none
  delete : Option Int := none

/-- One text-stream operation record; branch order in the source is
`insert`, `delete`, `attributes` (format, consuming `retain`), `retain`. -/
structure TextDelta where
  insert : Option (List Char) := none
  delete : Option Int := none
  attributes : Option (List (String × Json)) := none
  retain : Option Int := none

/-- The attribute stream: `set` entries (`{name, value}`) then `delete` keys. -/
structure AttrDelta where
  set : List (String × Json) := []
  delete : List String := []

/-- A decoded authoritative change message. -/
structure Message where
  root : Bool := false
  target : Option String := none
  elements : List ElementDelta := []
  text : List TextDelta := []
  attributes : Option AttrDelta := none

/-- The element-insert loop: splices each materialized node at the cursor
and advances the cursor by one per inserted node. -/
def spliceInserts (schema : MeshSchema) (children : List Node) (pos : Int) :
    List NodeSpec → Except MergeError (List Node × Int)
  | [] => .ok (children, pos)
  | spec :: rest => do
    let node ← createNode schema spec
    spliceInserts schema (jsSplice children pos 0 [node]) (pos + 1) rest

/-- The element-delta loop of `receiveChanges`: a single cursor starting
at 0; `retain` adds to it, `insert` splices materialized nodes one by one
advancing it, `delete` splices entries out and subtracts from it. -/
def applyElementDeltas (schema : MeshSchema) (children : List Node)
    (deltas : List ElementDelta) : Except MergeError (List Node) :=
  go children 0 deltas
where
  go (children : List Node) (retain : Int) : List ElementDelta → Except MergeError (List Node)
    | [] => .ok children
    | d :: rest => do
      let retain := match d.retain with | some n => retain + n | none => retain
      match d.insert with
      | some specs => do
        let (children, retain) ← spliceInserts schema children retain specs
        go children retain rest
      | none =>
        match d.delete with
        | some n => go (jsSplice children retain n []) (retain - n) rest
        | none => go children retain rest

/-- `Array.prototype.splice(n, 0, a)` for an in-bounds or clamped index:
insertion at position `n`. -/
def insertAt {α : Type} (l : List α) (n : Nat) (a : α) : List α :=
  l.take n ++ a :: l.drop n

/-- The text-delete loop: removes up to `toDelete - deleted` code units at
the absolute cursor `pos`, iterating run by run; `i` and `offset` survive
the loop, `pos` is not changed by it.  Running out of runs breaks out
silently (the `typeof str !== "string"` guard). -/
def deleteLoop (toDelete : Int) (runs : List Run) (i offset : Nat) (pos : Int) (deleted : Int) :
    List Run × Nat × Nat :=
  if toDelete > deleted then
    if hi : i < runs.length then
      let r := runs[i]
      let remaining := toDelete - deleted
      let str := r.insert
      if pos > (offset : Int) then
        let startPos := pos - offset
        let front := jsSliceTo str startPos
        let tail := jsSliceFrom str startPos
        if remaining ≥ (tail.length : Int) then
          deleteLoop toDelete (runs.set i { r with insert := front }) (i + 1)
            (offset + str.length) pos (deleted + tail.length)
        else
          deleteLoop toDelete
            (runs.set i { r with insert := front ++ jsSliceFrom tail remaining })
            i offset pos (deleted + remaining)
      else if remaining ≥ (str.length : Int) then
        deleteLoop toDelete (runs.eraseIdx i) i offset pos (deleted + str.length)
      else
        deleteLoop toDelete (runs.set i { r with insert := jsSliceFrom str remaining })
          i offset pos (deleted + remaining)
    else (runs, i, offset)
  else (runs, i, offset)
termination_by (toDelete - deleted).toNat + (runs.length - i)
decreasing_by
  all_goals
    try simp only [List.length_set, List.length_eraseIdx, if_pos hi]
    omega

/-- The format loop: applies `fmt` to the next `retainVal - formatted`
code units from `pos`.  A run straddling the start is split with the
formatted part spliced in right after it; a run formatted from its start
but only partially is trimmed and its unformatted tail pushed to the END
of the run list (`targetDelta.push`), exactly as the source does.
Indexing past the run list dereferences `undefined` (a `TypeError`). -/
def formatLoop (fmt : List (String × Json)) (retainVal : Int) (runs : List Run) (i offset : Nat)
    (pos : Int) (formatted : Int) : Except MergeError (List Run × Nat × Nat) :=
  if retainVal > formatted then
    if hi : i < runs.length then
      let r := runs[i]
      let remaining := retainVal - formatted
      let str := r.insert
      let startPos := pos - offset
      let front := jsSliceTo str startPos
      let tail := jsSliceFrom str startPos
      if pos > (offset : Int) then
        if remaining ≥ (tail.length : Int) then
          formatLoop fmt retainVal
            (insertAt (runs.set i { r with insert := front }) (i + 1)
              { insert := tail, attributes := objMerge r.attributes fmt })
            (i + 2) (offset + str.length) pos (formatted + tail.length)
        else
          formatLoop fmt retainVal
            (insertAt (insertAt (runs.set i { r with insert := front }) (i + 1)
                { insert := jsSliceTo tail remaining, attributes := objMerge r.attributes fmt })
              (i + 2) { insert := jsSliceFrom tail remaining, attributes := r.attributes })
            (i + 3) (offset + front.length + remaining.toNat) pos (formatted + remaining)
      else if remaining ≥ (str.length : Int) then
        formatLoop fmt retainVal
          (runs.set i { r with attributes := objMerge r.attributes fmt })
          (i + 1) (offset + str.length) pos (formatted + str.length)
      else
        formatLoop fmt retainVal
          ((runs.set i { insert := jsSliceTo str remaining,
                         attributes := objMerge r.attributes fmt })
            ++ [{ insert := jsSliceFrom str remaining, attributes := r.attributes }])
          i offset pos (formatted + remaining)
    else throw (.typeError "cannot read properties of undefined")
  else .ok (runs, i, offset)
termination_by 2 * (retainVal - formatted).toNat + (runs.length - i)
decreasing_by
  all_goals
    try simp only [insertAt, List.length_set, List.length_append, List.length_cons,
      List.length_nil, List.length_take, List.length_drop]
    omega

/-- The pure-retain advance: skips `i`/`offset` past every run strictly
exceeded by the moved cursor. -/
def retainAdvance (runs : List Run) (i offset : Nat) (pos : Int) : Nat × Nat :=
  if h : i < runs.length then
    if pos > ((offset : Int) + runs[i].insert.length) then
      retainAdvance runs (i + 1) (offset + runs[i].insert.length) pos
    else (i, offset)
  else (i, offset)
termination_by runs.length - i

/-- Applies one text-stream operation to the cursor state
`(runs, i, offset, pos)`. -/
def applyTextDelta (st : List Run × Nat × Nat × Int) (d : TextDelta) :
    Except MergeError (List Run × Nat × Nat × Int) :=
  let (runs, i, offset, pos) := st
  match d.insert with
  | some insStr =>
    if i = runs.length then
      .ok (runs ++ [{ insert := insStr, attributes := d.attributes.getD [] }],
           i + 1, offset + insStr.length, pos + insStr.length)
    else
      match runs[i]? with
      | none => throw (.typeError "cannot read properties of undefined")
      | some r =>
        let p := pos - offset
        .ok (runs.set i { r with insert := jsSliceTo r.insert p ++ insStr ++ jsSliceFrom r.insert p },
             i, offset, pos + insStr.length)
  | none =>
  match d.delete with
  | some n =>
    let (runs', i', offset') := deleteLoop n runs i offset pos 0
    .ok (runs', i', offset', pos)
  | none =>
  match d.attributes with
  | some fmt => do
    let retainVal := d.retain.getD 0
    let (runs', i', offset') ← formatLoop fmt retainVal runs i offset pos 0
    .ok (runs', i', offset', pos + retainVal)
  | none =>
  match d.retain with
  | some n =>
    let pos' := pos + n
    let (i', offset') := retainAdvance runs i offset pos'
    .ok (runs, i', offset', pos')
  | none => .ok (runs, i, offset, pos)

/-- Applies the text stream to a run list with all three cursors at 0. -/
def applyTextDeltas (runs : List Run) (deltas : List TextDelta) :
    Except MergeError (List Run × Nat × Nat × Int) :=
  deltas.foldlM applyTextDelta (runs, 0, 0, (0 : Int))

/-- Applies one change message at its resolved target element: element
stream, then text stream (which requires a `"text"`-tagged target whose
first child is the text node), then attribute stream.  A first child that
is not a text node makes every text operation dereference `undefined`
(`TypeError`). -/
def applyChangeAtTarget (schema : MeshSchema) (msg : Message) (target : Node) :
    Except MergeError Node := do
  match target with
  | .text _ => throw (.typeError "not an element")
  | .element tagName attrs children => do
    let children ← applyElementDeltas schema children msg.elements
    let children ←
      if msg.text.length ≠ 0 then do
        if tagName ≠ "text" then throw (.notATextNode tagName)
        match children with
        | .text delta :: rest => do
          let (runs, _, _, _) ← applyTextDeltas delta msg.text
          pure (Node.text runs :: rest)
        | _ => throw (.typeError "text node is missing delta")
      else pure children
    let attrs :=
      match msg.attributes with
      | some a =>
        let attrs1 := a.set.foldl (fun acc p => objSet acc p.1 p.2) attrs
        a.delete.foldl (fun acc k => objDelete acc k) attrs1
      | none => attrs
    .ok (.element tagName attrs children)

/-- A runtime document: id, shared schema, root element. -/
structure RDoc where
  id : String
  schema : MeshSchema
  root : Node

/-- The lazily instantiated root: the schema's root tag, empty attribute
map (in particular no `$id`), no children. -/
def initialRoot (schema : MeshSchema) : Node :=
  .element schema.rootTagName [] []

/-- `RuntimeDocument.receiveChanges`: resolves the target (`root: true`
short-circuits to the root, otherwise `getNodeByID` from the root; an
unresolved id throws `Target node not found`), then applies the three
op-streams there. -/
def receiveChanges (doc : RDoc) (msg : Message) : Except MergeError RDoc := do
  if msg.root then do
    let root' ← applyChangeAtTarget doc.schema msg doc.root
    .ok { doc with root := root' }
  else
    match applyAtNode (applyChangeAtTarget doc.schema msg) msg.target doc.root with
    | some (.ok root') => .ok { doc with root := root' }
    | some (.error e) => throw e
    | none => throw (.targetNotFound msg.target)

/-! ## Local mutation gateway (agent.ts: Element / TextElement methods)

Each method only reads `this` and the schema, and hands a change-intent
payload to the document's `sendChanges` callback; the embedding of a
method takes the fields of `this` that its body reads and returns the
(unchanged) document state together with the emitted payload. -/

/-- Errors thrown by gateway validation (`Error` throws in the source). -/
inductive GatewayError where
  | childrenNotAllowed (tag : String)
  | tagNotAllowed (child : String) (parentTag : String)
  | elementDoesNotBelong
  | schemaError (e : SchemaError)

/-- Serialization of a run into the wire `{insert, attributes}` object. -/
def Run.toJson (r : Run) : Json :=
  .obj [("insert", .str (String.mk r.insert)), ("attributes", .obj r.attributes)]

/-- Serialization of a node spec into the intent wire shape
(`{element: {name, attributes, children}}` / `{text: {delta}}`). -/
def NodeSpec.toIntentJson : NodeSpec → Json
  | .element tagName attributes children =>
    .obj [("element", .obj [("name", .str tagName), ("attributes", .obj attributes),
      ("children", .arr (children.attach.map (fun c => NodeSpec.toIntentJson c.1)))])]
  | .text delta => .obj [("text", .obj [("delta", .arr (delta.map Run.toJson))])]
decreasing_by
  simp_wf
  have := List.sizeOf_lt_of_mem c.2
  omega

/-- The `{name, attributes, children}` element payload built by the
`createChildElement*` family. -/
structure ElementData where
  name : String
  attributes : List (String × Json)
  children : List NodeSpec

/-- Wire form of an `ElementData`. -/
def ElementData.toJson (d : ElementData) : Json :=
  .obj [("name", .str d.name), ("attributes", .obj d.attributes),
        ("children", .arr (d.children.map NodeSpec.toIntentJson))]

/-- The `{documentID, changes: [change]}` payload handed to `sendChanges`. -/
def intentPayload (doc : RDoc) (change : List (String × Json)) : Json :=
  .obj [("documentID", .str doc.id), ("changes", .arr [.obj change])]

/-- The `nodeID` field of a change: `JSON.stringify` omits the key when
`this.id` is `undefined`. -/
def idField (selfId : Option Json) : List (String × Json) :=
  match selfId with
  | some v => [("nodeID", v)]
  | none => []

/-- `Element._defaultChildren`: a `"text"` element is seeded with one
empty text node, every other tag starts with no children. -/
def defaultChildren (tagName : String) : List NodeSpec :=
  if tagName = "text" then [.text []] else []

/-- `Element._ensureChildValid`: requires a child property on `this`,
membership of the tag in its allowed list, and a declared element type
for the tag. -/
def ensureChildValid (schema : MeshSchema) (selfType : ElementType) (tagName : String) :
    Except GatewayError ElementType := do
  match selfType.childPropertyName with
  | none => throw (.childrenNotAllowed selfType.tagName)
  | some childName =>
    let childProp ← match selfType.property childName with
      | .ok p => .ok p
      | .error e => throw (.schemaError e)
    if !(childProp.isTagAllowed tagName) then
      throw (.tagNotAllowed tagName selfType.tagName)
    match schema.element tagName with
    | .ok t => .ok t
    | .error e => throw (.schemaError e)

/-- `Element._validateElementAttributes`: every attribute key must be a
declared property of the child's element type. -/
def validateElementAttributes (elType : ElementType) (attributes : List (String × Json)) :
    Except GatewayError Unit :=
  attributes.foldlM (fun _ p =>
    match elType.property p.1 with
    | .ok _ => .ok ()
    | .error e => throw (.schemaError e)) ()

/-- `Element.setAttribute`: emits `{nodeID, setAttributes:{name:value}}`
and returns the document state untouched. -/
def Element.setAttribute (doc : RDoc) (selfAttrs : List (String × Json))
    (name : String) (value : Json) : RDoc × Json :=
  (doc, intentPayload doc (idField (objGet selfAttrs "$id") ++
    [("setAttributes", .obj [(name, value)])]))

/-- `Element.removeAttribute`: emits `{nodeID, removeAttributes:[name]}`. -/
def Element.removeAttribute (doc : RDoc) (selfAttrs : List (String × Json))
    (name : String) : RDoc × Json :=
  (doc, intentPayload doc (idField (objGet selfAttrs "$id") ++
    [("removeAttributes", .arr [.str name])]))

/-- `Element.delete`: emits `{nodeID, delete:{}}`. -/
def Element.deleteIntent (doc : RDoc) (selfAttrs : List (String × Json)) : RDoc × Json :=
  (doc, intentPayload doc (idField (objGet selfAttrs "$id") ++ [("delete", .obj [])]))

/-- `Element.createChildElement`: validates tag and attributes, builds the
`{name, attributes: {$id: newId, ...attributes}, children: default}`
payload, emits the `insertChildren` intent, and returns
`this.getNodeByID(newId)` computed against the UNCHANGED tree (`null`
until the authoritative echo arrives).  `this.elementType` is recovered
through the schema, which is how every tree node obtained it.  The fresh
`uuid()` is passed in as `newId`. -/
def Element.createChildElement (doc : RDoc) (selfTag : String)
    (selfAttrs : List (String × Json)) (selfChildren : List Node) (tagName : String)
    (attributes : List (String × Json)) (newId : String) :
    Except GatewayError (RDoc × Json × ElementData × Option Node) := do
  let selfType ← match doc.schema.element selfTag with
    | .ok t => .ok t
    | .error e => throw (.schemaError e)
  let childElementType ← ensureChildValid doc.schema selfType tagName
  validateElementAttributes childElementType attributes
  let elementData : ElementData := {
    name := tagName,
    attributes := objMerge [("$id", .str newId)] attributes,
    children := defaultChildren tagName }
  let payload := intentPayload doc (idField (objGet selfAttrs "$id") ++
    [("insertChildren", .obj [("children", .arr [.obj [("element", elementData.toJson)]])])])
  .ok (doc, payload, elementData,
       getNodeByID (.element selfTag selfAttrs selfChildren) (some newId))

/-- `Element.createChildElementAt`: like `createChildElement` with an
explicit `index` in the intent. -/
def Element.createChildElementAt (doc : RDoc) (selfTag : String)
    (selfAttrs : List (String × Json)) (selfChildren : List Node) (index : Int)
    (tagName : String) (attributes : List (String × Json)) (newId : String) :
    Except GatewayError (RDoc × Json × ElementData × Option Node) := do
  let selfType ← match doc.schema.element selfTag with
    | .ok t => .ok t
    | .error e => throw (.schemaError e)
  let childElementType ← ensureChildValid doc.schema selfType tagName
  validateElementAttributes childElementType attributes
  let elementData : ElementData := {
    name := tagName,
    attributes := objMerge [("$id", .str newId)] attributes,
    children := defaultChildren tagName }
  let payload := intentPayload doc (idField (objGet selfAttrs "$id") ++
    [("insertChildren", .obj [("index", .num index),
      ("children", .arr [.obj [("element", elementData.toJson)]])])])
  .ok (doc, payload, elementData,
       getNodeByID (.element selfTag selfAttrs selfChildren) (some newId))

/-- JS `===` on id values (`string | undefined` in practice); object
identity never arises for ids. -/
def jsStrictEq : Option Json → Option Json → Bool
  | none, none => true
  | some (.str a), some (.str b) => a == b
  | some (.num a), some (.num b) => a == b
  | some (.bool a), some (.bool b) => a == b
  | some .null, some .null => true
  | _, _ => false

/-- `Element.createChildElementAfter`: validates, requires the sibling's
parent id to equal `this.id`, and emits the intent with `after: sibling.id`. -/
def Element.createChildElementAfter (doc : RDoc) (selfTag : String)
    (selfAttrs : List (String × Json)) (selfChildren : List Node)
    (siblingParentId siblingId : Option Json) (tagName : String)
    (attributes : List (String × Json)) (newId : String) :
    Except GatewayError (RDoc × Json × ElementData × Option Node) := do
  let selfType ← match doc.schema.element selfTag with
    | .ok t => .ok t
    | .error e => throw (.schemaError e)
  let childElementType ← ensureChildValid doc.schema selfType tagName
  validateElementAttributes childElementType attributes
  if !(jsStrictEq siblingParentId (objGet selfAttrs "$id")) then
    throw .elementDoesNotBelong
  let elementData : ElementData := {
    name := tagName,
    attributes := objMerge [("$id", .str newId)] attributes,
    children := defaultChildren tagName }
  let payload := intentPayload doc (idField (objGet selfAttrs "$id") ++
    [("insertChildren", .obj (
      (match siblingId with | some v => [("after", v)] | none => []) ++
      [("children", .arr [.obj [("element", elementData.toJson)]])]))])
  .ok (doc, payload, elementData,
       getNodeByID (.element selfTag selfAttrs selfChildren) (some newId))

/-- `TextElement.insert`: emits a parent-targeted `insertText` intent. -/
def TextElement.insert (doc : RDoc) (parentId : Option Json) (index : Int)
    (text : List Char) (attributes : Option (List (String × Json))) : RDoc × Json :=
  (doc, intentPayload doc (idField parentId ++
    [("insertText", .obj [("index", .num index), ("text", .str (String.mk text)),
      ("attributes", .obj (attributes.getD []))])]))

/-- `TextElement.format`: emits a parent-targeted `formatText` intent. -/
def TextElement.format (doc : RDoc) (parentId : Option Json) (from_ len : Int)
    (attributes : List (String × Json)) : RDoc × Json :=
  (doc, intentPayload doc (idField parentId ++
    [("formatText", .obj [("from", .num from_), ("length", .num len),
      ("attributes", .obj attributes)])]))

/-- `TextElement.delete`: emits a parent-targeted `deleteText` intent. -/
def TextElement.deleteIntent (doc : RDoc) (parentId : Option Json) (index len : Int) :
    RDoc × Json :=
  (doc, intentPayload doc (idField parentId ++
    [("deleteText", .obj [("index", .num index), ("length", .num len)])]))

/-! ## Document lifecycle manager (sync-client.ts: SyncClient.open / close)

JavaScript is single-threaded: an `async` body runs atomically between
`await` points.  `open` is split at its two suspension points into the
synchronous segments below; the pending marker is written in the same
segment as the checks, so a second caller entering at any interleaving
either sees the marker or the registered document. -/

/-- Modelled from the spec: the `RefCount` wrapper imported from the
`utils` module is absent from the sources (only its call sites `rc.ref`,
`rc.count++`, `rc.count--`, `new RefCount(doc)` appear).  Per §4.4 and
the §8 lifecycle example, a freshly connected document is `connected`
with reference count 1, so `new RefCount(doc)` starts the count at 1.
Documents are identified by an opaque number. -/
structure RefCount where
  ref : Nat
  count : Int

/-- The lifecycle manager's state: paths with a connect in flight,
connected documents by path, and the requests issued to the external
sequencer (outputs, recorded in order). -/
structure SyncState where
  connecting : List String := []
  connected : List (String × RefCount) := []
  connectRequests : List String := []
  disconnectRequests : List String := []
  nextDoc : Nat := 0

/-- Looks a path up among the connected documents. -/
def SyncState.lookup (st : SyncState) (path : String) : Option RefCount :=
  (st.connected.find? (fun p => p.1 == path)).map Prod.snd

/-- Replaces the refcount registered for a path. -/
def SyncState.setCount (st : SyncState) (path : String) (c : Int) : SyncState :=
  { st with connected :=
      st.connected.map (fun p => if p.1 == path then (p.1, { p.2 with count := c }) else p) }

/-- Outcome of one synchronous segment of `open`. -/
inductive OpenOutcome where
  | suspendedOnPending
  | returned (doc : Nat)
  | requested
  deriving DecidableEq, Repr

/-- The segment of `open` that runs after the optional `await pending`:
an already-connected path gets its count incremented and its instance
returned; otherwise the completer is registered under the path and one
`room.connect` request is issued before the next suspension. -/
def openResume (st : SyncState) (path : String) : SyncState × OpenOutcome :=
  match st.lookup path with
  | some rc => (st.setCount path (rc.count + 1), .returned rc.ref)
  | none =>
    ({ st with connecting := st.connecting ++ [path],
               connectRequests := st.connectRequests ++ [path] }, .requested)

/-- The synchronous prefix of `open`: a path with a connect in flight
suspends on the pending completer (to continue later via `openResume`),
anything else falls through to `openResume` in the same segment. -/
def openEnter (st : SyncState) (path : String) : SyncState × OpenOutcome :=
  if st.connecting.contains path then (st, .suspendedOnPending)
  else openResume st path

/-- The continuation of `open` once the `room.connect` response arrives:
constructs the document, registers it with a fresh `RefCount`, completes
the completer and (in the `finally`) clears the pending marker — all
before any suspended waiter resumes. -/
def openComplete (st : SyncState) (path : String) : SyncState × Nat :=
  let doc := st.nextDoc
  ({ st with connected := st.connected ++ [(path, { ref := doc, count := 1 })],
             nextDoc := st.nextDoc + 1,
             connecting := st.connecting.filter (fun p => p ≠ path) }, doc)

/-- `SyncClient.close`: unknown paths throw; otherwise the count is
decremented and only at zero is the registration removed and one
`room.disconnect` request issued.  The returned flag reports whether the
teardown happened. -/
def closePath (st : SyncState) (path : String) : Except String (SyncState × Bool) :=
  match st.lookup path with
  | none => throw ("Not connected to " ++ path)
  | some rc =>
    let c := rc.count - 1
    if c = 0 then
      .ok ({ st with connected := st.connected.filter (fun p => p.1 ≠ path),
                     disconnectRequests := st.disconnectRequests ++ [path] }, true)
    else
      .ok (st.setCount path c, false)

/-! ## Shared fixtures: a small validated schema and documents over it -/

/-- The `"text"` element type of the demo schema: no properties. -/
def textType : ElementType := { tagName := "text", description := none, properties := [] }

/-- A `"child"` element type with one optional string attribute `hello`. -/
def childType : ElementType :=
  { tagName := "child", description := none,
    properties := [.value "hello" none SimpleValue.string none false] }

/-- The demo root type: allows `child` and `text` children, unordered. -/
def rootType : ElementType :=
  { tagName := "root", description := none,
    properties := [.child "children" none ["child", "text"] false] }

/-- A small schema declaring `root`, `child` and `text`. -/
def demoSchema : MeshSchema := { rootTagName := "root", elements := [rootType, childType, textType] }

/-- A freshly opened document over the demo schema (lazily created root). -/
def demoDoc : RDoc := { id := "doc1", schema := demoSchema, root := initialRoot demoSchema }

/-- A demo child element carrying `$id = "a"`. -/
def childA : Node := .element "child" [("$id", .str "a")] []

/-- A demo document whose root already holds one child. -/
def docA : RDoc := { id := "doc1", schema := demoSchema, root := .element "root" [] [childA] }

/-- In-order concatenation of a run list's text — the node's full text per
the spec's `TextElement` invariant. -/
def runsText (runs : List Run) : List Char := (runs.map Run.insert).flatten

/-! ## Theorems -/

@[simp] theorem exbind_ok {E A B : Type} (a : A) (f : A → Except E B) :
    (Except.ok a >>= f) = f a := rfl

@[simp] theorem exbind_error {E A B : Type} (e : E) (f : A → Except E B) :
    ((Except.error e : Except E A) >>= f) = Except.error e := rfl

@[simp] theorem exthrow_eq {E A : Type} (e : E) : (throw e : Except E A) = Except.error e := rfl

@[simp] theorem expure_eq {E A : Type} (a : A) : (pure a : Except E A) = Except.ok a := rfl

/-- A successful `Except`-fold of unit-valued validators succeeds pointwise. -/
theorem foldlM_unit_ok {E α : Type} (f : α → Except E Unit) (l : List α)
    (h : l.foldlM (fun _ x => f x) () = .ok ()) : ∀ x ∈ l, f x = .ok () := by
  induction l with
  | nil => simp
  | cons a l ih =>
    intro x hx
    rw [List.foldlM_cons] at h
    cases hfa : f a with
    | error e => simp [hfa] at h
    | ok u =>
      rw [hfa] at h
      simp only [exbind_ok] at h
      rcases List.mem_cons.mp hx with hxa | hxl
      · subst hxa; cases u; exact hfa
      · exact ih h x hxl

/-- `element` lookup succeeds exactly for declared tags. -/
theorem element_ok_iff (s : MeshSchema) (tag : String) :
    (∃ t, s.element tag = .ok t) ↔ tag ∈ s.elements.map ElementType.tagName := by
  constructor
  · rintro ⟨t, ht⟩
    unfold MeshSchema.element at ht
    cases hf : s.elements.find? (fun t => t.tagName == tag) with
    | none => simp [hf] at ht
    | some t' =>
      have hp := List.find?_some hf
      have hm := List.mem_of_find?_eq_some hf
      simp at hp
      exact List.mem_map.mpr ⟨t', hm, hp⟩
  · intro hm
    obtain ⟨t, htm, htag⟩ := List.mem_map.mp hm
    have : (s.elements.find? (fun t => t.tagName == tag)).isSome := by
      rw [List.find?_isSome]
      exact ⟨t, htm, by simp [htag]⟩
    obtain ⟨t', ht'⟩ := Option.isSome_iff_exists.mp this
    exact ⟨t', by unfold MeshSchema.element; rw [ht']⟩

/-- The duplicate-tag scan accepts exactly tag lists fresh for `seen`. -/
theorem checkTags_ok_nodup (seen : List String) (l : List ElementType)
    (h : mkMeshSchema.checkTags seen l = .ok ()) :
    (l.map ElementType.tagName).Nodup ∧ ∀ t ∈ l, t.tagName ∉ seen := by
  induction l generalizing seen with
  | nil => simp
  | cons a l ih =>
    unfold mkMeshSchema.checkTags at h
    by_cases hc : a.tagName ∈ seen
    · rw [if_pos (List.elem_iff.mpr hc)] at h
      simp at h
    · rw [if_neg (fun hh => hc (List.elem_iff.mp hh))] at h
      simp only [expure_eq, exbind_ok] at h
      obtain ⟨hnd, hns⟩ := ih _ h
      have hamem : a.tagName ∉ seen := hc
      refine ⟨?_, ?_⟩
      · simp only [List.map_cons, List.nodup_cons]
        refine ⟨fun hmem => ?_, hnd⟩
        obtain ⟨t, htm, htag⟩ := List.mem_map.mp hmem
        exact hns t htm (htag ▸ List.mem_cons_self _ _)
      · intro t htm
        rcases List.mem_cons.mp htm with h1 | h1
        · subst h1; exact hamem
        · exact fun hseen => hns t h1 (List.mem_cons_of_mem _ hseen)

/-- Everything a successful schema construction guarantees. -/
theorem mkMeshSchema_ok_inv (root : String) (elements : List ElementType) (s : MeshSchema)
    (h : mkMeshSchema root elements = .ok s) :
    s = { rootTagName := root, elements := elements } ∧
    mkMeshSchema.checkTags [] elements = .ok () ∧
    root ∈ elements.map ElementType.tagName ∧
    elements.foldlM (fun _ t => t.validate { rootTagName := root, elements := elements }) () =
      .ok () := by
  unfold mkMeshSchema at h
  cases hct : mkMeshSchema.checkTags [] elements with
  | error e => rw [hct] at h; simp at h
  | ok u =>
    cases u
    rw [hct] at h
    simp only [exbind_ok, exbind_error, exthrow_eq, expure_eq] at h
    split at h
    · simp at h
    · rename_i hroot
      cases hval : elements.foldlM
          (fun _ t => t.validate { rootTagName := root, elements := elements }) () with
      | error e => rw [hval] at h; simp at h
      | ok u =>
        cases u
        rw [hval] at h
        simp only [exbind_ok] at h
        have hs : s = { rootTagName := root, elements := elements } := by
          cases h; rfl
        refine ⟨hs, rfl, ?_, by simpa using hval⟩
        rw [Bool.not_eq_true, Option.isNone_eq_false_iff, Option.isSome_iff_exists] at hroot
        obtain ⟨t', ht'⟩ := hroot
        have hp := List.find?_some ht'
        have hm := List.mem_of_find?_eq_some ht'
        simp at hp
        exact List.mem_map.mpr ⟨t', hm, hp⟩


/-- A child property that validated resolves every referenced tag. -/
theorem childValidate_ok (s : MeshSchema) (n : String) (d : Option String)
    (tags : List String) (o : Bool)
    (h : (ElementProperty.child n d tags o).validate s = .ok ()) :
    ∀ tag ∈ tags, ∃ t, s.element tag = .ok t := by
  intro tag htag
  have h2 := foldlM_unit_ok
    (fun tg => (do let _ ← s.element tg; (.ok () : Except SchemaError Unit))) tags h tag htag
  cases he : s.element tag with
  | error e => simp [he] at h2
  | ok t => exact ⟨t, rfl⟩

/-- C7: `MeshSchema.element(tag)` succeeds with the declared element type
exactly when `tag` was declared; and a schema constructed with a
`ChildProperty` referencing an undeclared tag, with a duplicate
`tagName`, or with a root tag absent from the map can never come out of
the constructor: `mkMeshSchema` fails with a schema-validation error at
construction time, so no such schema exists at use time. -/
theorem c7_schema_validation :
    (∀ (s : MeshSchema) (tag : String),
        ((∃ t, s.element tag = .ok t) ↔ tag ∈ s.elements.map ElementType.tagName) ∧
        (∀ t, s.element tag = .ok t → t ∈ s.elements ∧ t.tagName = tag)) ∧
    (∀ (root tag0 : String) (elements : List ElementType) (t : ElementType)
        (p : ElementProperty), t ∈ elements → p ∈ t.properties → p.isChild = true →
        p.isTagAllowed tag0 = true → tag0 ∉ elements.map ElementType.tagName →
        ∀ s, mkMeshSchema root elements ≠ .ok s) ∧
    (∀ (root : String) (elements : List ElementType),
        ¬ (elements.map ElementType.tagName).Nodup →
        ∀ s, mkMeshSchema root elements ≠ .ok s) ∧
    (∀ (root : String) (elements : List ElementType),
        root ∉ elements.map ElementType.tagName →
        ∀ s, mkMeshSchema root elements ≠ .ok s) := by
  refine ⟨?_, ?_, ?_, ?_⟩
  · intro s tag
    refine ⟨element_ok_iff s tag, ?_⟩
    intro t ht
    unfold MeshSchema.element at ht
    cases hf : s.elements.find? (fun t => t.tagName == tag) with
    | none => rw [hf] at ht; simp at ht
    | some t' =>
      rw [hf] at ht
      cases ht
      have hp := List.find?_some hf
      simp at hp
      exact ⟨List.mem_of_find?_eq_some hf, hp⟩
  · intro root tag0 elements t p htmem hpmem hchild hallowed hnotdecl s hok
    obtain ⟨hs, _, _, hval⟩ := mkMeshSchema_ok_inv root elements s hok
    have hvt := foldlM_unit_ok
      (fun t => t.validate { rootTagName := root, elements := elements }) elements hval t htmem
    have hvp := foldlM_unit_ok
      (fun p => p.validate { rootTagName := root, elements := elements }) t.properties
      (by simpa [ElementType.validate] using hvt) p hpmem
    cases p with
    | value _ _ _ _ _ => simp [ElementProperty.isChild] at hchild
    | child n d tags o =>
      have htag0 : tag0 ∈ tags := by
        simpa [ElementProperty.isTagAllowed, List.elem_iff] using hallowed
      obtain ⟨el, hel⟩ := childValidate_ok _ n d tags o (by simpa using hvp) tag0 htag0
      have := (element_ok_iff { rootTagName := root, elements := elements } tag0).mp ⟨el, hel⟩
      exact hnotdecl this
  · intro root elements hnd s hok
    obtain ⟨_, hct, _, _⟩ := mkMeshSchema_ok_inv root elements s hok
    exact hnd (checkTags_ok_nodup [] elements hct).1
  · intro root elements hroot s hok
    obtain ⟨_, _, hr, _⟩ := mkMeshSchema_ok_inv root elements s hok
    exact hroot hr



/-- C3: counter-evidence.  Claim C3 states that a format op leaves the
in-order concatenation of the run texts unchanged and splits straddling
runs in place.  On the run list `["ab", "cd"]` (total length 4 ≥ pos+n =
0+1) the op `{attributes: {bold}, retain: 1}` makes the code trim run 0
to `"a"`, merge the attributes there, and `push` the unformatted tail
`"b"` to the END of the run list (`targetDelta.push`, agent.ts), so the
concatenation becomes `"acdb"`: text order is corrupted whenever the
formatted run is not the last one, contradicting the spec's own
TextElement invariant (the code contradicts the spec here; every other
branch of the same function splices the split-off part back in place). -/
theorem c3_format_pushes_tail_to_end :
    applyTextDeltas [⟨"ab".data, []⟩, ⟨"cd".data, []⟩]
        [{ attributes := some [("bold", .bool true)], retain := some 1 }] =
      .ok ([⟨"a".data, [("bold", .bool true)]⟩, ⟨"cd".data, []⟩, ⟨"b".data, []⟩], 0, 0, 1) ∧
    runsText [⟨"a".data, [("bold", .bool true)]⟩, ⟨"cd".data, []⟩, ⟨"b".data, []⟩] ≠
      runsText [⟨"ab".data, []⟩, ⟨"cd".data, []⟩] := by
  constructor
  · simp [applyTextDeltas, applyTextDelta, formatLoop, jsSliceTo, jsSliceFrom, objMerge, objSet,
      insertAt, List.foldlM]
  · intro h
    have : "acdb".data = "abcd".data := h
    simp at this

/-- C10: a change message with `root !== true` and an absent (`undefined`)
target id resolves to the root element — `getNodeByID` compares ids with
`===` and the lazily created root carries no `$id`, so
`undefined === undefined` matches the root first — and the message is
applied there rather than failing with a target-not-found error.  Stated
on a document whose root has a child carrying a `$id`, for any attribute
value. -/
theorem c10_absent_target_resolves_to_root (v : Json) :
    getNodeByID docA.root none = some docA.root ∧
    receiveChanges docA
        { root := false, target := none, attributes := some { set := [("x", v)] } } =
      .ok { docA with root := .element "root" [("x", v)] [childA] } := by
  exact ⟨rfl, rfl⟩

/-- C4: applying the element-op list `[{retain:0},{insert:[X]}]` through
`receiveChanges` and then `[{retain:0},{delete:1}]` to the same target
restores the original children array — for every document, original
children list and insertable spec `X`. -/
theorem c4_insert_then_delete_restores (doc : RDoc) (tag : String)
    (attrs : List (String × Json)) (children : List Node) (X : NodeSpec) (node : Node)
    (hX : createNode doc.schema X = .ok node)
    (hdoc : doc.root = .element tag attrs children) :
    receiveChanges doc
        { root := true, elements := [{ retain := some 0 }, { insert := some [X] }] } =
      .ok { doc with root := .element tag attrs (node :: children) } ∧
    receiveChanges { doc with root := .element tag attrs (node :: children) }
        { root := true, elements := [{ retain := some 0 }, { delete := some 1 }] } =
      .ok doc := by
  constructor
  · simp [receiveChanges, applyChangeAtTarget, applyElementDeltas, applyElementDeltas.go,
      spliceInserts, hX, hdoc, jsSplice]
  · have h2 : jsSplice (node :: children) 0 1 ([] : List Node) = children := by
      simp [jsSplice]
    have hd : doc = { doc with root := Node.element tag attrs children } := by
      rw [← hdoc]
    rw [hd]
    simp [receiveChanges, applyChangeAtTarget, applyElementDeltas, applyElementDeltas.go, h2]

/-- Witness for C4: concrete insert-then-delete round trip on `docA`. -/
theorem c4_insert_then_delete_restores_witness :
    receiveChanges docA
        { root := true,
          elements := [{ retain := some 0 }, { insert := some [NodeSpec.element "child" [] []] }] } =
      .ok { docA with root := Node.element "root" [] (Node.element "child" [] [] :: [childA]) } ∧
    receiveChanges { docA with root := Node.element "root" [] (Node.element "child" [] [] :: [childA]) }
        { root := true, elements := [{ retain := some 0 }, { delete := some 1 }] } =
      .ok docA :=
  c4_insert_then_delete_restores docA "root" [] [childA]
    (NodeSpec.element "child" [] []) (Node.element "child" [] [])
    (by simp [createNode, demoSchema, docA, MeshSchema.element, createNodeList, rootType,
          childType, textType])
    rfl

/-- Witness for C7: lookup succeeds on the demo schema, and the three
violating constructions fail, at concrete inputs. -/
theorem c7_schema_validation_witness :
    (∃ t, demoSchema.element "child" = .ok t) ∧
    (∀ s, mkMeshSchema "root" [rootType, childType] ≠ .ok s) ∧
    (∀ s, mkMeshSchema "root" [rootType, childType, textType, childType] ≠ .ok s) ∧
    (∀ s, mkMeshSchema "missing" [rootType, childType, textType] ≠ .ok s) := by
  refine ⟨?_, ?_, ?_, ?_⟩
  · exact (c7_schema_validation.1 demoSchema "child").1.mpr (by decide)
  · exact c7_schema_validation.2.1 "root" "text" _ rootType
      (.child "children" none ["child", "text"] false)
      (List.mem_cons_self _ _) (List.mem_cons_self _ _) rfl (by decide) (by decide)
  · exact c7_schema_validation.2.2.1 "root" _ (by decide)
  · exact c7_schema_validation.2.2.2 "missing" _ (by decide)


/-- C2: no Local Mutation Gateway call changes the tree: with `sendChanges`
treated as opaque output, every call returns the document state it was
given — `setAttribute`, `removeAttribute`, `delete` and the three text
intents unconditionally, and each `createChildElement*` variant on every
successful run (validation failures throw before anything is emitted). -/
theorem c2_gateway_calls_do_not_mutate (doc : RDoc) (selfTag : String)
    (selfAttrs : List (String × Json)) (selfChildren : List Node) (name tagName newId : String)
    (v : Json) (attrs : List (String × Json)) (idx i l : Int)
    (sibPar sibId parentId : Option Json) (textAttrs : Option (List (String × Json)))
    (txt : List Char) (fmtAttrs : List (String × Json)) :
    (Element.setAttribute doc selfAttrs name v).1 = doc ∧
    (Element.removeAttribute doc selfAttrs name).1 = doc ∧
    (Element.deleteIntent doc selfAttrs).1 = doc ∧
    (∀ r, Element.createChildElement doc selfTag selfAttrs selfChildren tagName attrs newId =
        .ok r → r.1 = doc) ∧
    (∀ r, Element.createChildElementAt doc selfTag selfAttrs selfChildren idx tagName attrs newId =
        .ok r → r.1 = doc) ∧
    (∀ r, Element.createChildElementAfter doc selfTag selfAttrs selfChildren sibPar sibId tagName
        attrs newId = .ok r → r.1 = doc) ∧
    (TextElement.insert doc parentId i txt textAttrs).1 = doc ∧
    (TextElement.format doc parentId i l fmtAttrs).1 = doc ∧
    (TextElement.deleteIntent doc parentId i l).1 = doc := by
  refine ⟨rfl, rfl, rfl, ?_, ?_, ?_, rfl, rfl, rfl⟩
  · intro r h
    unfold Element.createChildElement at h
    cases hse : doc.schema.element selfTag with
    | error e => rw [hse] at h; simp at h
    | ok selfType =>
      rw [hse] at h
      simp only [exbind_ok] at h
      cases hcv : ensureChildValid doc.schema selfType tagName with
      | error e => rw [hcv] at h; simp at h
      | ok cet =>
        rw [hcv] at h
        simp only [exbind_ok] at h
        cases hva : validateElementAttributes cet attrs with
        | error e => rw [hva] at h; simp at h
        | ok u =>
          cases u
          rw [hva] at h
          simp only [exbind_ok] at h
          cases h
          rfl
  · intro r h
    unfold Element.createChildElementAt at h
    cases hse : doc.schema.element selfTag with
    | error e => rw [hse] at h; simp at h
    | ok selfType =>
      rw [hse] at h
      simp only [exbind_ok] at h
      cases hcv : ensureChildValid doc.schema selfType tagName with
      | error e => rw [hcv] at h; simp at h
      | ok cet =>
        rw [hcv] at h
        simp only [exbind_ok] at h
        cases hva : validateElementAttributes cet attrs with
        | error e => rw [hva] at h; simp at h
        | ok u =>
          cases u
          rw [hva] at h
          simp only [exbind_ok] at h
          cases h
          rfl
  · intro r h
    unfold Element.createChildElementAfter at h
    cases hse : doc.schema.element selfTag with
    | error e => rw [hse] at h; simp at h
    | ok selfType =>
      rw [hse] at h
      simp only [exbind_ok] at h
      cases hcv : ensureChildValid doc.schema selfType tagName with
      | error e => rw [hcv] at h; simp at h
      | ok cet =>
        rw [hcv] at h
        simp only [exbind_ok] at h
        cases hva : validateElementAttributes cet attrs with
        | error e => rw [hva] at h; simp at h
        | ok u =>
          cases u
          rw [hva] at h
          simp only [exbind_ok] at h
          by_cases hsib : jsStrictEq sibPar (objGet selfAttrs "$id")
          · rw [if_neg (by simp [hsib])] at h
            simp only [expure_eq, exbind_ok] at h
            cases h
            rfl
          · rw [if_pos (by simp [hsib])] at h
            simp at h

/-- Witness for C2: a concrete successful `createChildElement` run plus one
of the unconditional frame equations. -/
theorem c2_gateway_calls_do_not_mutate_witness :
    (Element.setAttribute demoDoc [] "x" Json.null).1 = demoDoc ∧
    ∃ r, Element.createChildElement demoDoc "root" [] [] "child" [("hello", Json.str "world")]
          "id1" = .ok r ∧ r.1 = demoDoc := by
  have h := c2_gateway_calls_do_not_mutate demoDoc "root" [] [] "x" "child" "id1" Json.null
    [("hello", Json.str "world")] 0 0 0 none none none none [] []
  refine ⟨h.1, ?_⟩
  have hok : Element.createChildElement demoDoc "root" [] [] "child"
      [("hello", Json.str "world")] "id1" =
      .ok (demoDoc,
        intentPayload demoDoc [("insertChildren", .obj [("children", .arr
          [.obj [("element", (ElementData.mk "child"
            [("$id", .str "id1"), ("hello", .str "world")] []).toJson)]])])],
        ElementData.mk "child" [("$id", .str "id1"), ("hello", .str "world")] [], none) := by
    rfl
  exact ⟨_, hok, h.2.2.2.1 _ hok⟩


/-- `Element.getChildren`. -/
def Node.getChildren : Node → List Node
  | .element _ _ cs => cs
  | .text _ => []

/-- Modelled from the spec: the external sequencer, and the path from an
`insertChildren` intent back into `receiveChanges`, are not part of these
sources (intents are handed to a backend).  Per §4.3 and §6 the sequencer
echoes the intent as an authoritative change message addressed to the
intent's target node whose element stream inserts the intent's element
payload (the payload's `name` arriving as the node spec's tag name). -/
def sequencerEcho (targetId : Option Json) (d : ElementData) : Message :=
  { root := false,
    target := match targetId with | some (.str s) => some s | _ => none,
    elements := [{ insert := some [.element d.name d.attributes d.children] }] }

/-- C6: calling `createChildElement("child", {hello: v})` on the demo
document's root and applying the echoed insert message makes
`getNodeByID(newId)` return an element whose `hello` attribute is `v`,
and leaves the target with exactly one child — for every fresh id and
attribute value. -/
theorem c6_create_child_identity (newId : String) (v : Json) :
    ∃ r, Element.createChildElement demoDoc "root" [] [] "child" [("hello", v)] newId = .ok r ∧
    ∃ doc', receiveChanges demoDoc (sequencerEcho (objGet [] "$id") r.2.2.1) = .ok doc' ∧
      (∃ el, getNodeByID doc'.root (some newId) = some el ∧
        el.getAttribute "hello" = some v) ∧
      doc'.root.getChildren.length = 1 := by
  refine ⟨_, rfl, ?_⟩
  refine ⟨{ demoDoc with root := Node.element "root" [] [Node.element "child" [("$id", Json.str newId), ("hello", v)] []] }, ?_, ?_, ?_⟩
  · simp [receiveChanges, sequencerEcho, applyChangeAtTarget, applyElementDeltas,
      applyElementDeltas.go, spliceInserts, createNode, createNodeList, demoDoc, demoSchema,
      initialRoot, MeshSchema.element, rootType, childType, textType, applyAtNode, idMatches,
      objGet, objMerge, objSet, jsSplice, defaultChildren]
  · refine ⟨Node.element "child" [("$id", Json.str newId), ("hello", v)] [], ?_, ?_⟩
    · simp [getNodeByID, getNodeByIDList, idMatches, objGet, objMerge, objSet, initialRoot,
        demoSchema]
    · simp [Node.getAttribute, objGet, objMerge, objSet]
  · simp [Node.getChildren]


/-- List form of the `setCount` lookup equation. -/
theorem find?_setCount_list (l : List (String × RefCount)) (p : String) (c : Int) :
    ((l.map (fun q => if q.1 == p then (q.1, { q.2 with count := c }) else q)).find?
        (fun q => q.1 == p)).map Prod.snd =
      ((l.find? (fun q => q.1 == p)).map Prod.snd).map (fun rc => { rc with count := c }) := by
  induction l with
  | nil => rfl
  | cons q l ih =>
    obtain ⟨k, rc⟩ := q
    by_cases hq : k = p
    · subst hq; simp [List.find?_cons]
    · have hb : (k == p) = false := by simp [hq]
      simp only [List.map_cons, List.find?_cons, hb, Bool.false_eq_true, if_false, ite_false]
      exact ih

/-- Looking up a path after setting its count rewrites just the count. -/
theorem lookup_setCount (st : SyncState) (p : String) (c : Int) :
    (st.setCount p c).lookup p = (st.lookup p).map (fun rc => { rc with count := c }) := by
  unfold SyncState.setCount SyncState.lookup
  exact find?_setCount_list st.connected p c

/-- Other fields survive `setCount`. -/
theorem setCount_fields (st : SyncState) (p : String) (c : Int) :
    (st.setCount p c).connecting = st.connecting ∧
    (st.setCount p c).connectRequests = st.connectRequests ∧
    (st.setCount p c).disconnectRequests = st.disconnectRequests ∧
    (st.setCount p c).nextDoc = st.nextDoc := ⟨rfl, rfl, rfl, rfl⟩

/-- A registration appended behind unrelated entries is found. -/
theorem find?_append_pair (l : List (String × RefCount)) (p : String) (rc : RefCount)
    (h : l.find? (fun q => q.1 == p) = none) :
    (l ++ [(p, rc)]).find? (fun q => q.1 == p) = some (p, rc) := by
  rw [List.find?_append, h]
  simp

/-- A `lookup` miss is a `find?` miss on the underlying list. -/
theorem find?_none_of_lookup_none (st : SyncState) (p : String)
    (h : st.lookup p = none) : st.connected.find? (fun q => q.1 == p) = none := by
  unfold SyncState.lookup at h
  cases hx : st.connected.find? (fun q => q.1 == p) with
  | none => rfl
  | some q => rw [hx] at h; simp at h


/-- C9: reference-counted document lifecycle.  (a) `open` on a connected
path (no connect in flight) increments the count and returns the same
instance issuing no request.  (b) From a clean state, the first `open`
registers the pending marker and issues exactly one `room.connect`
request in its synchronous prefix; a second concurrent `open` suspends on
the marker; when the response arrives the document is registered with
count 1 and the waiter resumes to the same instance with count 2 — one
connect request total.  (c) One `close` only decrements (still connected,
no disconnect request); the second removes the registration and issues
the `room.disconnect`. -/
theorem c9_open_close_lifecycle (st0 : SyncState) (p : String)
    (hpend : p ∉ st0.connecting) (hconn : st0.lookup p = none) :
    (∀ (st : SyncState) (rc : RefCount), st.lookup p = some rc → p ∉ st.connecting →
        openEnter st p = (st.setCount p (rc.count + 1), .returned rc.ref) ∧
        (st.setCount p (rc.count + 1)).connectRequests = st.connectRequests) ∧
    ∃ st1 st2 st3 st4 : SyncState, ∃ d : Nat,
      openEnter st0 p = (st1, .requested) ∧
      st1.connectRequests = st0.connectRequests ++ [p] ∧
      openEnter st1 p = (st1, .suspendedOnPending) ∧
      openComplete st1 p = (st2, d) ∧
      st2.lookup p = some ⟨d, 1⟩ ∧
      st2.connectRequests = st0.connectRequests ++ [p] ∧
      openResume st2 p = (st3, .returned d) ∧
      st3.lookup p = some ⟨d, 2⟩ ∧
      st3.connectRequests = st0.connectRequests ++ [p] ∧
      closePath st3 p = .ok (st4, false) ∧
      st4.lookup p = some ⟨d, 1⟩ ∧
      st4.disconnectRequests = st0.disconnectRequests ∧
      ∀ st5 ok5, closePath st4 p = .ok (st5, ok5) →
        ok5 = true ∧ st5.lookup p = none ∧
        st5.disconnectRequests = st0.disconnectRequests ++ [p] := by
  have hcont0 : st0.connecting.contains p = false := by
    rw [Bool.eq_false_iff]
    exact fun hc => hpend (List.elem_iff.mp hc)
  constructor
  · intro st rc hrc hnp
    have hcont : st.connecting.contains p = false := by
      rw [Bool.eq_false_iff]
      exact fun hc => hnp (List.elem_iff.mp hc)
    constructor
    · unfold openEnter openResume
      rw [hcont]
      simp [hrc]
    · rfl
  · refine
      ⟨{ st0 with connecting := st0.connecting ++ [p],
                  connectRequests := st0.connectRequests ++ [p] },
       ?st2, ?st3, ?st4, st0.nextDoc, ?_, ?_, ?_, ?_, ?_, ?_, ?_, ?_, ?_, ?_, ?_, ?_, ?_⟩
    case st2 =>
      exact { st0 with
        connecting := (st0.connecting ++ [p]).filter (fun q => q ≠ p),
        connected := st0.connected ++ [(p, { ref := st0.nextDoc, count := 1 })],
        connectRequests := st0.connectRequests ++ [p],
        nextDoc := st0.nextDoc + 1 }
    case st3 =>
      exact SyncState.setCount { st0 with
        connecting := (st0.connecting ++ [p]).filter (fun q => q ≠ p),
        connected := st0.connected ++ [(p, { ref := st0.nextDoc, count := 1 })],
        connectRequests := st0.connectRequests ++ [p],
        nextDoc := st0.nextDoc + 1 } p 2
    case st4 =>
      exact SyncState.setCount (SyncState.setCount { st0 with
        connecting := (st0.connecting ++ [p]).filter (fun q => q ≠ p),
        connected := st0.connected ++ [(p, { ref := st0.nextDoc, count := 1 })],
        connectRequests := st0.connectRequests ++ [p],
        nextDoc := st0.nextDoc + 1 } p 2) p 1
    · unfold openEnter openResume
      rw [hcont0]
      simp [hconn]
    · rfl
    · unfold openEnter
      rw [show ((st0.connecting ++ [p]).contains p) = true by simp [List.elem_iff]]
      rfl
    · rfl
    · simp only [SyncState.lookup]
      rw [find?_append_pair _ p _ (find?_none_of_lookup_none st0 p hconn)]
      rfl
    · rfl
    · unfold openResume
      simp only [SyncState.lookup]
      rw [find?_append_pair _ p _ (find?_none_of_lookup_none st0 p hconn)]
      rfl
    · rw [lookup_setCount]
      simp only [SyncState.lookup]
      rw [find?_append_pair _ p _ (find?_none_of_lookup_none st0 p hconn)]
      rfl
    · rfl
    · unfold closePath
      rw [lookup_setCount]
      simp only [SyncState.lookup]
      rw [find?_append_pair _ p _ (find?_none_of_lookup_none st0 p hconn)]
      norm_num
    · rw [lookup_setCount, lookup_setCount]
      simp only [SyncState.lookup]
      rw [find?_append_pair _ p _ (find?_none_of_lookup_none st0 p hconn)]
      rfl
    · rfl
    · intro st5 ok5 h
      unfold closePath at h
      rw [lookup_setCount, lookup_setCount] at h
      simp only [SyncState.lookup] at h
      rw [find?_append_pair _ p _ (find?_none_of_lookup_none st0 p hconn)] at h
      norm_num at h
      obtain ⟨h5, hok⟩ := h
      subst h5
      refine ⟨hok.symm ▸ rfl, ?_, rfl⟩
      unfold SyncState.lookup
      rw [List.find?_eq_none.mpr]
      · rfl
      · intro q hq
        have := List.of_mem_filter hq
        simpa using this


/-- Witness for C9: the full open/open/complete/resume/close/close scenario
run from the empty lifecycle state on path `doc/a`. -/
theorem c9_open_close_lifecycle_witness :
    ∃ st1 st2 st3 st4 : SyncState, ∃ d : Nat,
      openEnter ({} : SyncState) "doc/a" = (st1, .requested) ∧
      st1.connectRequests = ["doc/a"] ∧
      openEnter st1 "doc/a" = (st1, .suspendedOnPending) ∧
      openComplete st1 "doc/a" = (st2, d) ∧
      st2.lookup "doc/a" = some ⟨d, 1⟩ ∧
      st2.connectRequests = ["doc/a"] ∧
      openResume st2 "doc/a" = (st3, .returned d) ∧
      st3.lookup "doc/a" = some ⟨d, 2⟩ ∧
      st3.connectRequests = ["doc/a"] ∧
      closePath st3 "doc/a" = .ok (st4, false) ∧
      st4.lookup "doc/a" = some ⟨d, 1⟩ ∧
      st4.disconnectRequests = [] ∧
      ∀ st5 ok5, closePath st4 "doc/a" = .ok (st5, ok5) →
        ok5 = true ∧ st5.lookup "doc/a" = none ∧
        st5.disconnectRequests = ["doc/a"] :=
  (c9_open_close_lifecycle {} "doc/a" (by simp) rfl).2


/-- One element-stream operation as the spec itemizes them: `{retain:n}`,
`{insert:[nodeSpec,...]}` or `{delete:n}`. -/
inductive SpecElementOp where
  | retain (n : Int)
  | insert (specs : List NodeSpec)
  | delete (n : Int)

/-- The pure-single-key wire record of a spec op. -/
def SpecElementOp.toDelta : SpecElementOp → ElementDelta
  | .retain n => { retain := some n }
  | .insert specs => { insert := some specs }
  | .delete n => { delete := some n }

/-- Follows the spec's words for C1 (compared below against the
implementation's `applyElementDeltas`): a single forward cursor `pos`
starts at 0; `retain:n` adds `n` to `pos`; `insert:[specs]` splices each
recursively materialized node into the children at index `pos` and
increments `pos` by one per inserted top-level node; `delete:n` removes
`n` entries starting at `pos` and then decrements `pos` by `n`. -/
def specApplyElementOps (schema : MeshSchema) (children : List Node)
    (ops : List SpecElementOp) : Except MergeError (List Node) :=
  go children 0 ops
where
  insertLoop (children : List Node) (pos : Int) :
      List NodeSpec → Except MergeError (List Node × Int)
    | [] => .ok (children, pos)
    | spec :: rest => do
      let node ← createNode schema spec
      insertLoop (jsSplice children pos 0 [node]) (pos + 1) rest
  go (children : List Node) (pos : Int) : List SpecElementOp → Except MergeError (List Node)
    | [] => .ok children
    | .retain n :: rest => go children (pos + n) rest
    | .insert specs :: rest => do
      let r ← insertLoop children pos specs
      go r.1 r.2 rest
    | .delete n :: rest => go (jsSplice children pos n []) (pos - n) rest

/-- The implementation's insert loop coincides with the spec's. -/
theorem spliceInserts_eq_insertLoop (schema : MeshSchema) (specs : List NodeSpec) :
    ∀ (children : List Node) (pos : Int),
      spliceInserts schema children pos specs =
        specApplyElementOps.insertLoop schema children pos specs := by
  induction specs with
  | nil => intro children pos; rfl
  | cons spec rest ih =>
    intro children pos
    unfold spliceInserts specApplyElementOps.insertLoop
    cases hc : createNode schema spec with
    | error e => rfl
    | ok node => simp only [exbind_ok]; exact ih _ _

/-- C1: the element-op list applied by `receiveChanges` implements exactly
the spec's single-forward-cursor algorithm — for single-key op records,
`applyElementDeltas` and the spec-worded `specApplyElementOps` agree on
every schema, children list and op list. -/
theorem c1_element_ops_cursor (schema : MeshSchema) (children : List Node)
    (ops : List SpecElementOp) :
    applyElementDeltas schema children (ops.map SpecElementOp.toDelta) =
      specApplyElementOps schema children ops := by
  suffices h : ∀ (ops : List SpecElementOp) (children : List Node) (pos : Int),
      applyElementDeltas.go schema children pos (ops.map SpecElementOp.toDelta) =
        specApplyElementOps.go schema children pos ops by
    exact h ops children 0
  intro ops
  induction ops with
  | nil => intro children pos; rfl
  | cons op rest ih =>
    intro children pos
    cases op with
    | retain n =>
      simp [applyElementDeltas.go, specApplyElementOps.go, SpecElementOp.toDelta, ih]
    | insert specs =>
      cases hs : spliceInserts schema children pos specs with
      | error e =>
        simp [applyElementDeltas.go, specApplyElementOps.go, SpecElementOp.toDelta,
          ← spliceInserts_eq_insertLoop, hs]
      | ok r =>
        simp [applyElementDeltas.go, specApplyElementOps.go, SpecElementOp.toDelta,
          ← spliceInserts_eq_insertLoop, hs, ih]
    | delete n =>
      simp [applyElementDeltas.go, specApplyElementOps.go, SpecElementOp.toDelta, ih]

/-- Length of run `i`, 0 past the end of the list. -/
def runLenAt (runs : List Run) (i : Nat) : Nat :=
  ((runs[i]?).map (fun r => r.insert.length)).getD 0

/-- Cursor states of the text scan reachable inside `receiveChanges`:
either exactly `pos` code units precede run `i` (with the cursor at or
behind `offset`, as after a completed partial trim), or `offset` is the
untrimmed length of the runs before `i` and the cursor sits strictly
inside run `i` (or at its end). -/
def TextCursorOk (runs : List Run) (i offset : Nat) (pos : Int) : Prop :=
  (pos = ((runsText (runs.take i)).length : Int) ∧ pos ≤ (offset : Int)) ∨
  (offset = (runsText (runs.take i)).length ∧ (offset : Int) < pos ∧
    pos ≤ (offset : Int) + runLenAt runs i)

theorem jsSliceTo_nonneg (s : List Char) (n : Int) (h : 0 ≤ n) :
    jsSliceTo s n = s.take n.toNat := by
  unfold jsSliceTo
  rw [if_neg (by omega)]

theorem jsSliceFrom_nonneg (s : List Char) (n : Int) (h : 0 ≤ n) :
    jsSliceFrom s n = s.drop n.toNat := by
  unfold jsSliceFrom
  rw [if_neg (by omega)]

theorem runsText_append (a b : List Run) : runsText (a ++ b) = runsText a ++ runsText b := by
  simp [runsText]

theorem runsText_cons (r : Run) (l : List Run) :
    runsText (r :: l) = r.insert ++ runsText l := by
  simp [runsText]

theorem runsText_decomp (runs : List Run) (i : Nat) (h : i < runs.length) :
    runsText runs = runsText (runs.take i) ++ runs[i].insert ++ runsText (runs.drop (i + 1)) := by
  conv_lhs => rw [← List.take_append_drop i runs]
  rw [runsText_append, List.drop_eq_getElem_cons h, runsText_cons]
  rw [List.append_assoc]

theorem runsText_set (runs : List Run) (i : Nat) (r' : Run) (h : i < runs.length) :
    runsText (runs.set i r') =
      runsText (runs.take i) ++ r'.insert ++ runsText (runs.drop (i + 1)) := by
  rw [List.set_eq_take_append_cons_drop, if_pos h]
  rw [runsText_append, runsText_cons, List.append_assoc]

theorem runsText_eraseIdx (runs : List Run) (i : Nat) (h : i < runs.length) :
    runsText (runs.eraseIdx i) =
      runsText (runs.take i) ++ runsText (runs.drop (i + 1)) := by
  rw [List.eraseIdx_eq_take_drop_succ, runsText_append]

theorem take_app3 {α : Type} (P str S : List α) (a : Nat) (ha : a ≤ str.length) :
    (P ++ str ++ S).take (P.length + a) = P ++ str.take a := by
  rw [List.append_assoc, List.take_append_eq_append_take, List.take_append_eq_append_take]
  rw [List.take_of_length_le (by omega)]
  rw [show P.length + a - P.length = a by omega]
  rw [show a - str.length = 0 by omega]
  simp

theorem drop_app3_le {α : Type} (P str S : List α) (b : Nat) (hb : b ≤ str.length) :
    (P ++ str ++ S).drop (P.length + b) = str.drop b ++ S := by
  rw [List.append_assoc, List.drop_append_eq_append_drop, List.drop_append_eq_append_drop]
  rw [List.drop_of_length_le (by omega)]
  rw [show P.length + b - P.length = b by omega]
  rw [show b - str.length = 0 by omega]
  simp

theorem drop_app3_ge {α : Type} (P str S : List α) (b : Nat) (hb : str.length ≤ b) :
    (P ++ str ++ S).drop (P.length + b) = S.drop (b - str.length) := by
  rw [List.append_assoc, List.drop_append_eq_append_drop, List.drop_append_eq_append_drop]
  rw [List.drop_of_length_le (by omega), List.drop_of_length_le (by omega)]
  rw [show P.length + b - P.length = b by omega]
  simp


theorem take_app2 {α : Type} (P S : List α) : (P ++ S).take P.length = P := by
  simp [List.take_append_eq_append_take]

theorem drop_app2 {α : Type} (P S : List α) (b : Nat) :
    (P ++ S).drop (P.length + b) = S.drop b := by
  rw [List.drop_append_eq_append_drop]
  rw [List.drop_of_length_le (by omega)]
  rw [show P.length + b - P.length = b by omega]
  simp

theorem take_set_self (runs : List Run) (i : Nat) (r' : Run) :
    (runs.set i r').take i = runs.take i := by
  by_cases h : i < runs.length
  · rw [List.set_eq_take_append_cons_drop, if_pos h]
    rw [List.take_append_eq_append_take]
    simp [List.length_take, Nat.min_eq_left (Nat.le_of_lt h)]
  · rw [List.set_eq_of_length_le (by omega)]

theorem take_succ_set (runs : List Run) (i : Nat) (r' : Run) (h : i < runs.length) :
    (runs.set i r').take (i + 1) = runs.take i ++ [r'] := by
  rw [List.set_eq_take_append_cons_drop, if_pos h]
  rw [List.take_append_eq_append_take]
  have hlen : (List.take i runs).length = i := by simp [Nat.le_of_lt h]
  rw [List.take_of_length_le (by omega)]
  rw [hlen, show i + 1 - i = 1 by omega]
  rfl

theorem take_eraseIdx_self (runs : List Run) (i : Nat) (h : i < runs.length) :
    (runs.eraseIdx i).take i = runs.take i := by
  rw [List.eraseIdx_eq_take_drop_succ]
  rw [List.take_append_eq_append_take]
  have hlen : (List.take i runs).length = i := by simp [Nat.le_of_lt h]
  simp [hlen]


theorem deleteLoop_step_tail_full (toDelete : Int) (runs : List Run) (i offset : Nat)
    (pos deleted : Int) (hg : toDelete > deleted) (hi : i < runs.length)
    (hpos : pos > (offset : Int))
    (hrem : toDelete - deleted ≥ ((jsSliceFrom runs[i].insert (pos - offset)).length : Int)) :
    deleteLoop toDelete runs i offset pos deleted =
      deleteLoop toDelete
        (runs.set i { runs[i] with insert := jsSliceTo runs[i].insert (pos - offset) })
        (i + 1) (offset + runs[i].insert.length) pos
        (deleted + (jsSliceFrom runs[i].insert (pos - offset)).length) := by
  conv_lhs => rw [deleteLoop.eq_def]
  simp only [if_pos hg, dif_pos hi, if_pos hpos, if_pos hrem]


theorem deleteLoop_step_tail_part (toDelete : Int) (runs : List Run) (i offset : Nat)
    (pos deleted : Int) (hg : toDelete > deleted) (hi : i < runs.length)
    (hpos : pos > (offset : Int))
    (hrem : ¬ toDelete - deleted ≥ ((jsSliceFrom runs[i].insert (pos - offset)).length : Int)) :
    deleteLoop toDelete runs i offset pos deleted =
      deleteLoop toDelete
        (runs.set i (Run.mk (jsSliceTo runs[i].insert (pos - offset) ++
            jsSliceFrom (jsSliceFrom runs[i].insert (pos - offset)) (toDelete - deleted))
          runs[i].attributes))
        i offset pos (deleted + (toDelete - deleted)) := by
  conv_lhs => rw [deleteLoop.eq_def]
  simp only [if_pos hg, dif_pos hi, if_pos hpos, if_neg hrem]

theorem deleteLoop_step_erase (toDelete : Int) (runs : List Run) (i offset : Nat)
    (pos deleted : Int) (hg : toDelete > deleted) (hi : i < runs.length)
    (hpos : ¬ pos > (offset : Int))
    (hrem : toDelete - deleted ≥ (runs[i].insert.length : Int)) :
    deleteLoop toDelete runs i offset pos deleted =
      deleteLoop toDelete (runs.eraseIdx i) i offset pos (deleted + runs[i].insert.length) := by
  conv_lhs => rw [deleteLoop.eq_def]
  simp only [if_pos hg, dif_pos hi, if_neg hpos, if_pos hrem]

theorem deleteLoop_step_trim (toDelete : Int) (runs : List Run) (i offset : Nat)
    (pos deleted : Int) (hg : toDelete > deleted) (hi : i < runs.length)
    (hpos : ¬ pos > (offset : Int))
    (hrem : ¬ toDelete - deleted ≥ (runs[i].insert.length : Int)) :
    deleteLoop toDelete runs i offset pos deleted =
      deleteLoop toDelete
        (runs.set i { runs[i] with insert := jsSliceFrom runs[i].insert (toDelete - deleted) })
        i offset pos (deleted + (toDelete - deleted)) := by
  conv_lhs => rw [deleteLoop.eq_def]
  simp only [if_pos hg, dif_pos hi, if_neg hpos, if_neg hrem]

theorem deleteLoop_done (toDelete : Int) (runs : List Run) (i offset : Nat)
    (pos deleted : Int) (hg : ¬ toDelete > deleted) :
    deleteLoop toDelete runs i offset pos deleted = (runs, i, offset) := by
  rw [deleteLoop.eq_def]
  simp only [if_neg hg]

theorem deleteLoop_oob (toDelete : Int) (runs : List Run) (i offset : Nat)
    (pos deleted : Int) (hg : toDelete > deleted) (hi : ¬ i < runs.length) :
    deleteLoop toDelete runs i offset pos deleted = (runs, i, offset) := by
  rw [deleteLoop.eq_def]
  simp only [if_pos hg, dif_neg hi]


theorem deleteLoop_window_aux (toDelete : Int) (fuel : Nat) :
    ∀ (runs : List Run) (i offset : Nat) (pos deleted : Int),
      (toDelete - deleted).toNat + (runs.length - i) ≤ fuel →
      TextCursorOk runs i offset pos →
      deleted ≤ toDelete →
      pos + (toDelete - deleted) ≤ ((runsText runs).length : Int) →
      runsText (deleteLoop toDelete runs i offset pos deleted).1 =
        (runsText runs).take pos.toNat ++
          (runsText runs).drop (pos + (toDelete - deleted)).toNat := by
  induction fuel with
  | zero =>
    intro runs i offset pos deleted hfuel hcur hdt hwin
    have hg : ¬ toDelete > deleted := by omega
    rw [deleteLoop_done toDelete runs i offset pos deleted hg]
    rw [show (pos + (toDelete - deleted)).toNat = pos.toNat from by omega]
    exact (List.take_append_drop _ _).symm
  | succ fuel ih =>
    intro runs i offset pos deleted hfuel hcur hdt hwin
    by_cases hg : toDelete > deleted
    · by_cases hi : i < runs.length
      · have hdec := runsText_decomp runs i hi
        have hlen : runLenAt runs i = runs[i].insert.length := by
          simp [runLenAt, List.getElem?_eq_getElem hi]
        by_cases hpos : pos > (offset : Int)
        · -- the cursor is strictly inside run i
          rcases hcur with ⟨h1, h2⟩ | ⟨hoff, hlt, hub⟩
          · omega
          rw [hlen] at hub
          have hsp0 : (0 : Int) ≤ pos - offset := by omega
          have hfront := jsSliceTo_nonneg runs[i].insert (pos - offset) hsp0
          have htail := jsSliceFrom_nonneg runs[i].insert (pos - offset) hsp0
          have hsple : (pos - offset).toNat ≤ runs[i].insert.length := by omega
          have htaillen : (jsSliceFrom runs[i].insert (pos - offset)).length =
              runs[i].insert.length - (pos - offset).toNat := by
            rw [htail]; simp
          have hfrontlen : (jsSliceTo runs[i].insert (pos - offset)).length =
              (pos - offset).toNat := by
            rw [hfront]; simp; omega
          by_cases hrem : toDelete - deleted ≥
              ((jsSliceFrom runs[i].insert (pos - offset)).length : Int)
          · -- the whole tail of run i is consumed
            rw [deleteLoop_step_tail_full toDelete runs i offset pos deleted hg hi hpos hrem]
            have hT' := runsText_set runs i
              { runs[i] with insert := jsSliceTo runs[i].insert (pos - offset) } hi
            have hcur' : TextCursorOk
                (runs.set i { runs[i] with insert := jsSliceTo runs[i].insert (pos - offset) })
                (i + 1) (offset + runs[i].insert.length) pos := by
              left
              constructor
              · rw [take_succ_set runs i _ hi, runsText_append, runsText_cons]
                rw [show runsText [] = [] from rfl, List.append_nil, List.length_append]
                rw [hfrontlen]
                omega
              · omega
            have hm : (toDelete -
                (deleted + ((jsSliceFrom runs[i].insert (pos - offset)).length : Int))).toNat +
                ((runs.set i
                  { runs[i] with insert := jsSliceTo runs[i].insert (pos - offset) }).length -
                  (i + 1)) ≤ fuel := by
              rw [List.length_set]
              omega
            have hwin' : pos +
                (toDelete -
                  (deleted + ((jsSliceFrom runs[i].insert (pos - offset)).length : Int))) ≤
                ((runsText (runs.set i
                  { runs[i] with insert := jsSliceTo runs[i].insert (pos - offset) })).length :
                  Int) := by
              rw [hT']
              rw [hdec] at hwin
              simp only [List.length_append] at hwin ⊢
              rw [hfrontlen]
              omega
            rw [ih _ _ _ _ _ hm hcur' (by omega) hwin']
            rw [hT', hdec, hfront]
            set P := runsText (runs.take i) with hP
            set S := runsText (runs.drop (i + 1)) with hS
            set str := runs[i].insert with hstr
            have hposN : pos.toNat = P.length + (pos - (offset : Int)).toNat := by omega
            rw [hposN]
            rw [take_app3 P (str.take (pos - (offset : Int)).toNat) S
              ((pos - (offset : Int)).toNat) (by simp only [List.length_take]; omega)]
            rw [take_app3 P str S ((pos - (offset : Int)).toNat) hsple]
            rw [List.take_take, Nat.min_self]
            have hidx1 : (pos +
                (toDelete - (deleted + ((jsSliceFrom str (pos - offset)).length : Int)))).toNat =
                P.length + ((pos - (offset : Int)).toNat +
                  ((toDelete - deleted).toNat - (str.length - (pos - (offset : Int)).toNat))) := by
              rw [htaillen]
              omega
            have hidx2 : (pos + (toDelete - deleted)).toNat =
                P.length + ((pos - (offset : Int)).toNat + (toDelete - deleted).toNat) := by
              omega
            rw [hidx1, hidx2]
            rw [drop_app3_ge P (str.take (pos - (offset : Int)).toNat) S _
              (by simp only [List.length_take]; omega)]
            rw [drop_app3_ge P str S _ (by omega)]
            have hfin : (pos - (offset : Int)).toNat +
                ((toDelete - deleted).toNat - (str.length - (pos - (offset : Int)).toNat)) -
                (List.take (pos - (offset : Int)).toNat str).length =
                (pos - (offset : Int)).toNat + (toDelete - deleted).toNat - str.length := by
              simp only [List.length_take]
              omega
            rw [hfin]
          · -- only part of the tail is consumed; the op finishes in this run
            rw [deleteLoop_step_tail_part toDelete runs i offset pos deleted hg hi hpos hrem]
            set r1 := Run.mk (jsSliceTo runs[i].insert (pos - offset) ++
              jsSliceFrom (jsSliceFrom runs[i].insert (pos - offset)) (toDelete - deleted))
              runs[i].attributes with hr1
            have hT' := runsText_set runs i r1 hi
            have hr1len : r1.insert.length =
                (pos - (offset : Int)).toNat +
                  (runs[i].insert.length - (pos - (offset : Int)).toNat -
                    (toDelete - deleted).toNat) := by
              rw [hr1]
              simp only [List.length_append, hfrontlen]
              rw [jsSliceFrom_nonneg _ _ (by omega : (0 : Int) ≤ toDelete - deleted)]
              rw [htail]
              simp only [List.length_drop]
            have hcur' : TextCursorOk (runs.set i r1) i offset pos := by
              right
              refine ⟨?_, by omega, ?_⟩
              · rw [take_set_self]; exact hoff
              · have hrl : runLenAt (runs.set i r1) i = r1.insert.length := by
                  simp [runLenAt, List.getElem?_set_self, hi]
                rw [hrl, hr1len]
                simp only [htaillen] at hrem
                omega
            have hm : (toDelete - (deleted + (toDelete - deleted))).toNat +
                ((runs.set i r1).length - i) ≤ fuel := by
              rw [List.length_set]
              omega
            have hwin' : pos + (toDelete - (deleted + (toDelete - deleted))) ≤
                ((runsText (runs.set i r1)).length : Int) := by
              rw [hT']
              simp only [List.length_append, hr1len]
              omega
            rw [ih _ _ _ _ _ hm hcur' (by omega) hwin']
            rw [show toDelete - (deleted + (toDelete - deleted)) = 0 from by omega]
            rw [show (pos + (0 : Int)).toNat = pos.toNat from by omega]
            rw [List.take_append_drop]
            rw [hT', hdec, hr1]
            rw [jsSliceFrom_nonneg _ _ (by omega : (0 : Int) ≤ toDelete - deleted)]
            rw [hfront, htail]
            set P := runsText (runs.take i) with hP
            set S := runsText (runs.drop (i + 1)) with hS
            set str := runs[i].insert with hstr
            have hposN : pos.toNat = P.length + (pos - (offset : Int)).toNat := by omega
            rw [hposN]
            rw [take_app3 P str S ((pos - (offset : Int)).toNat) hsple]
            have hidx2 : (pos + (toDelete - deleted)).toNat =
                P.length + ((pos - (offset : Int)).toNat + (toDelete - deleted).toNat) := by
              omega
            rw [hidx2]
            rw [drop_app3_le P str S _ (by simp only [htaillen] at hrem; omega)]
            rw [List.drop_drop]
            simp [List.append_assoc]
        · -- the cursor is at or before the start of run i
          rcases hcur with ⟨h1, h2⟩ | ⟨hoff, hlt, hub⟩
          · by_cases hrem : toDelete - deleted ≥ (runs[i].insert.length : Int)
            · -- the whole run is removed
              rw [deleteLoop_step_erase toDelete runs i offset pos deleted hg hi hpos hrem]
              have hT' := runsText_eraseIdx runs i hi
              have hcur' : TextCursorOk (runs.eraseIdx i) i offset pos := by
                left
                rw [take_eraseIdx_self runs i hi]
                exact ⟨h1, h2⟩
              have hm : (toDelete - (deleted + ((runs[i].insert.length : Nat) : Int))).toNat +
                  ((runs.eraseIdx i).length - i) ≤ fuel := by
                rw [List.length_eraseIdx, if_pos hi]
                omega
              have hwin' : pos + (toDelete - (deleted + ((runs[i].insert.length : Nat) : Int))) ≤
                  ((runsText (runs.eraseIdx i)).length : Int) := by
                rw [hT']
                rw [hdec] at hwin
                simp only [List.length_append] at hwin ⊢
                omega
              rw [ih _ _ _ _ _ hm hcur' (by omega) hwin']
              rw [hT', hdec]
              set P := runsText (runs.take i) with hP
              set S := runsText (runs.drop (i + 1)) with hS
              set str := runs[i].insert with hstr
              have hposN : pos.toNat = P.length := by omega
              have htk3 : (P ++ str ++ S).take pos.toNat = P := by
                have := take_app3 P str S 0 (by omega)
                simpa [hposN] using this
              have htk2 : (P ++ S).take pos.toNat = P := by
                rw [hposN]; exact take_app2 P S
              rw [htk3, htk2]
              have hidxR : (pos + (toDelete - deleted)).toNat =
                  P.length + (toDelete - deleted).toNat := by omega
              have hidxL : (pos + (toDelete - (deleted + ((str.length : Nat) : Int)))).toNat =
                  P.length + ((toDelete - deleted).toNat - str.length) := by omega
              rw [hidxR, hidxL]
              rw [drop_app3_ge P str S _ (by omega)]
              rw [drop_app2 P S]
            · -- only a front portion of the run is removed; the op finishes here
              rw [deleteLoop_step_trim toDelete runs i offset pos deleted hg hi hpos hrem]
              set r1 := Run.mk (jsSliceFrom runs[i].insert (toDelete - deleted))
                runs[i].attributes with hr1
              have hsf := jsSliceFrom_nonneg runs[i].insert (toDelete - deleted)
                (by omega : (0 : Int) ≤ toDelete - deleted)
              have hT' := runsText_set runs i r1 hi
              have hcur' : TextCursorOk (runs.set i r1) i offset pos := by
                left
                rw [take_set_self]
                exact ⟨h1, h2⟩
              have hm : (toDelete - (deleted + (toDelete - deleted))).toNat +
                  ((runs.set i r1).length - i) ≤ fuel := by
                rw [List.length_set]
                omega
              have hwin' : pos + (toDelete - (deleted + (toDelete - deleted))) ≤
                  ((runsText (runs.set i r1)).length : Int) := by
                rw [hT']
                simp only [List.length_append]
                omega
              rw [ih _ _ _ _ _ hm hcur' (by omega) hwin']
              rw [show toDelete - (deleted + (toDelete - deleted)) = 0 from by omega]
              rw [show (pos + (0 : Int)).toNat = pos.toNat from by omega]
              rw [List.take_append_drop]
              rw [hT', hdec, hr1, hsf]
              set P := runsText (runs.take i) with hP
              set S := runsText (runs.drop (i + 1)) with hS
              set str := runs[i].insert with hstr
              have hposN : pos.toNat = P.length := by omega
              have htk3 : (P ++ str ++ S).take pos.toNat = P := by
                have := take_app3 P str S 0 (by omega)
                simpa [hposN] using this
              rw [htk3]
              have hidxR : (pos + (toDelete - deleted)).toNat =
                  P.length + (toDelete - deleted).toNat := by omega
              rw [hidxR]
              rw [drop_app3_le P str S _ (by omega)]
              simp [List.append_assoc]
          · omega
      · -- ran out of runs: impossible while the window still has content
        exfalso
        have htk : runs.take i = runs := List.take_of_length_le (by omega)
        have hrl : runLenAt runs i = 0 := by
          simp [runLenAt, List.getElem?_eq_none (by omega : runs.length ≤ i)]
        rcases hcur with ⟨h1, h2⟩ | ⟨hoff, hlt, hub⟩
        · rw [htk] at h1; omega
        · rw [htk] at hoff; rw [hrl] at hub; omega
    · rw [deleteLoop_done toDelete runs i offset pos deleted hg]
      rw [show (pos + (toDelete - deleted)).toNat = pos.toNat from by omega]
      exact (List.take_append_drop _ _).symm


/-- C5: the `delete(n)` text op removes exactly the `n` code units starting
at the absolute cursor `pos`, consuming run by run — for every run list
and reachable cursor state whose window fits in the text, the
concatenated text after the loop is the original text with
`[pos, pos+n)` cut out; and in particular applying a delete of 6 at
position 0 to the delta `[{insert:"hello world"}]` yields
`[{insert:"world"}]`. -/
theorem c5_delete_removes_window :
    (∀ (runs : List Run) (i offset : Nat) (pos n : Int),
        TextCursorOk runs i offset pos → 0 ≤ n →
        pos + n ≤ ((runsText runs).length : Int) →
        runsText (deleteLoop n runs i offset pos 0).1 =
          (runsText runs).take pos.toNat ++ (runsText runs).drop (pos + n).toNat) ∧
    applyTextDeltas [⟨"hello world".data, []⟩] [{ delete := some 6 }] =
      .ok ([⟨"world".data, []⟩], 0, 0, 0) := by
  constructor
  · intro runs i offset pos n hcur hn hwin
    have h := deleteLoop_window_aux n (n.toNat + (runs.length - i)) runs i offset pos 0
      (by omega) hcur (by omega) (by simpa using hwin)
    simpa using h
  · simp [applyTextDeltas, applyTextDelta, deleteLoop, jsSliceFrom, jsSliceTo, List.foldlM]

/-- Witness for C5: deleting one code unit at position 1 of the single run
`"abc"` leaves `"ac"`. -/
theorem c5_delete_removes_window_witness :
    runsText (deleteLoop 1 [⟨"abc".data, []⟩] 0 0 1 0).1 =
      (runsText [⟨"abc".data, []⟩]).take 1 ++ (runsText [⟨"abc".data, []⟩]).drop 2 := by
  have h := c5_delete_removes_window.1 [⟨"abc".data, []⟩] 0 0 1 1
    (by unfold TextCursorOk; right; refine ⟨by simp [runsText], by norm_num, ?_⟩
        simp [runsText, runLenAt])
    (by norm_num) (by simp [runsText])
  simpa using h

/-- The normalization a serialization round trip performs on a property:
`ValueProperty.toJson` writes `{type, enum}` for an enum property whether
or not it was required, and `ElementType.fromJson` reads a bare `type`
back as required, so a value property with enum values comes back with
`required = true`; everything else survives unchanged. -/
def ElementProperty.roundTripNorm : ElementProperty → ElementProperty
  | .value n d t e r => .value n d t e (r || e.isSome)
  | .child n d tags o => .child n d tags o

/-- Round-trip normalization of an element type: property-wise. -/
def ElementType.roundTripNorm (t : ElementType) : ElementType :=
  { t with properties := t.properties.map ElementProperty.roundTripNorm }

/-- Round-trip normalization of a schema: element-wise. -/
def MeshSchema.roundTripNorm (s : MeshSchema) : MeshSchema :=
  { s with elements := s.elements.map ElementType.roundTripNorm }

theorem roundTripNorm_name (p : ElementProperty) : p.roundTripNorm.name = p.name := by
  cases p <;> rfl

theorem roundTripNorm_isChild (p : ElementProperty) :
    p.roundTripNorm.isChild = p.isChild := by
  cases p <;> rfl

theorem roundTripNorm_tagName (t : ElementType) :
    t.roundTripNorm.tagName = t.tagName := rfl

theorem fromString_toStr (t : SimpleValue) : SimpleValue.fromString t.toStr = some t := by
  cases t <;> rfl

theorem stripDefsRef_append (t : String) : stripDefsRef ("#/$defs/" ++ t) = t := by
  unfold stripDefsRef jsStartsWith
  have hdata : ("#/$defs/" ++ t).data = defsRefHead ++ t.data := by
    cases t with
    | mk d => rfl
  rw [hdata]
  rw [List.take_left, beq_self_eq_true, if_pos rfl]
  rw [List.drop_left]

theorem parseRefTag_roundtrip (tag : String) :
    parseRefTag (.obj [("$ref", .str ("#/$defs/" ++ tag))]) = .ok tag := by
  simp [parseRefTag, objGet, stripDefsRef_append]

theorem mapM_loop_parseRefTag (tags : List String) (acc : List String) :
    List.mapM.loop parseRefTag
        (tags.map (fun p => Json.obj [("$ref", Json.str ("#/$defs/" ++ p))])) acc =
      .ok (acc.reverse ++ tags) := by
  induction tags generalizing acc with
  | nil => simp [List.mapM.loop]
  | cons tag rest ih =>
    rw [List.map_cons]
    simp [List.mapM.loop, parseRefTag_roundtrip, ih]

theorem mapM_parseRefTag (tags : List String) :
    (tags.map (fun p => Json.obj [("$ref", Json.str ("#/$defs/" ++ p))])).mapM parseRefTag =
      .ok tags := by
  simp [List.mapM, mapM_loop_parseRefTag]

/-- Parsing back a serialized property yields its round-trip normalization. -/
theorem parsePropertyJson_toJsonVal (p : ElementProperty) :
    parsePropertyJson p.name p.toJsonVal = .ok p.roundTripNorm := by
  cases p with
  | value n d t e r =>
    cases e with
    | some evs =>
      cases d <;>
        simp [ElementProperty.toJsonVal, parsePropertyJson, objGet, jsonAsStr,
          fromString_toStr, ElementProperty.roundTripNorm, ElementProperty.name,
          show ∀ t : SimpleValue, (t.toStr = "array") = False by intro t; cases t <;> simp [SimpleValue.toStr]]
    | none =>
      cases r <;> cases d <;>
        simp [ElementProperty.toJsonVal, parsePropertyJson, objGet, jsonAsStr,
          fromString_toStr, ElementProperty.roundTripNorm, ElementProperty.name,
          show ∀ t : SimpleValue, (t.toStr = "array") = False by intro t; cases t <;> simp [SimpleValue.toStr]]
  | child n d tags o =>
    cases o <;> cases d <;>
      simp [ElementProperty.toJsonVal, parsePropertyJson, objGet, jsonAsStr, jsTruthy,
        parseChildTags, mapM_parseRefTag, mapM_loop_parseRefTag, List.mapM,
        parsePropertyJson.parseUnordered, ElementProperty.roundTripNorm, ElementProperty.name]

/-- The duplicate-property scan accepts exactly name lists fresh for `seen`. -/
theorem check_ok_nodup (tag : String) (seen : List String) (b : Bool)
    (ps : List ElementProperty)
    (h : mkElementType.check tag seen b ps = .ok ()) :
    (ps.map ElementProperty.name).Nodup ∧ ∀ p ∈ ps, p.name ∉ seen := by
  induction ps generalizing seen b with
  | nil => simp
  | cons p rest ih =>
    unfold mkElementType.check at h
    by_cases hcb : (p.isChild && b) = true
    · rw [if_pos hcb] at h; simp at h
    · rw [if_neg hcb] at h
      simp only [expure_eq, exbind_ok] at h
      by_cases hc : p.name ∈ seen
      · rw [if_pos (List.elem_iff.mpr hc)] at h; simp at h
      · rw [if_neg (fun hh => hc (List.elem_iff.mp hh))] at h
        obtain ⟨hnd, hns⟩ := ih _ _ h
        refine ⟨?_, ?_⟩
        · simp only [List.map_cons, List.nodup_cons]
          refine ⟨fun hmem => ?_, hnd⟩
          obtain ⟨q, hqm, hqn⟩ := List.mem_map.mp hmem
          exact hns q hqm (hqn ▸ List.mem_cons_self _ _)
        · intro q hq
          rcases List.mem_cons.mp hq with h1 | h1
          · subst h1; exact hc
          · exact fun hseen => hns q h1 (List.mem_cons_of_mem _ hseen)

/-- Round-trip normalization keeps names and child-ness, so the
duplicate-property scan is blind to it. -/
theorem check_map_norm (tag : String) (seen : List String) (b : Bool)
    (ps : List ElementProperty) :
    mkElementType.check tag seen b (ps.map ElementProperty.roundTripNorm) =
      mkElementType.check tag seen b ps := by
  induction ps generalizing seen b with
  | nil => rfl
  | cons p rest ih =>
    rw [List.map_cons]
    unfold mkElementType.check
    rw [roundTripNorm_isChild, roundTripNorm_name]
    cases hcb : p.isChild && b <;> cases hc : seen.contains p.name <;>
      simp [hcb, hc, ih]

theorem mkElementType_ok_inv (tag : String) (d : Option String)
    (ps : List ElementProperty) (t : ElementType)
    (h : mkElementType tag d ps = .ok t) :
    mkElementType.check tag [] false ps = .ok () ∧
    t = { tagName := tag, description := d, properties := ps } := by
  unfold mkElementType at h
  cases hck : mkElementType.check tag [] false ps with
  | error e => rw [hck] at h; simp at h
  | ok u =>
    cases u
    rw [hck] at h
    simp only [exbind_ok, expure_eq] at h
    exact ⟨rfl, by cases h; rfl⟩

/-- The validating constructor accepts the normalized property list of any
list it accepted, producing the normalized element type. -/
theorem mkElementType_norm (t : ElementType)
    (h : mkElementType t.tagName t.description t.properties = .ok t) :
    mkElementType t.tagName t.description
        (t.properties.map ElementProperty.roundTripNorm) = .ok t.roundTripNorm := by
  obtain ⟨hck, -⟩ := mkElementType_ok_inv _ _ _ _ h
  unfold mkElementType
  rw [check_map_norm, hck]
  simp [ElementType.roundTripNorm]

/-- Assigning a fresh key appends it. -/
theorem objSet_fresh (acc : List (String × Json)) (k : String) (v : Json)
    (h : k ∉ acc.map Prod.fst) : objSet acc k v = acc ++ [(k, v)] := by
  induction acc with
  | nil => rfl
  | cons q rest ih =>
    obtain ⟨k', v'⟩ := q
    simp only [List.map_cons, List.mem_cons] at h
    push_neg at h
    unfold objSet
    rw [if_neg (by simp only [beq_iff_eq]; exact fun e => h.1 e.symm)]
    rw [ih h.2]
    rfl

/-- Folding `objSet` over distinct fresh keys builds the association list
in iteration order. -/
theorem foldl_objSet_map {α : Type} (key : α → String) (f : α → Json) :
    ∀ (xs : List α) (acc : List (String × Json)),
      (xs.map key).Nodup →
      (∀ x ∈ xs, key x ∉ acc.map Prod.fst) →
      xs.foldl (fun acc x => objSet acc (key x) (f x)) acc =
        acc ++ xs.map (fun x => (key x, f x)) := by
  intro xs
  induction xs with
  | nil => intro acc _ _; simp
  | cons x rest ih =>
    intro acc hnd hfresh
    simp only [List.map_cons, List.nodup_cons] at hnd
    rw [List.foldl_cons, objSet_fresh acc (key x) (f x) (hfresh x (List.mem_cons_self _ _))]
    have hfr : ∀ y ∈ rest, key y ∉ (acc ++ [(key x, f x)]).map Prod.fst := by
      intro y hy
      simp only [List.map_append, List.map_cons, List.map_nil, List.mem_append,
        List.mem_cons, List.not_mem_nil, or_false]
      rintro (hmem | hk)
      · exact hfresh y (List.mem_cons_of_mem _ hy) hmem
      · exact hnd.1 (List.mem_map.mpr ⟨y, hy, hk⟩)
    rw [ih (acc ++ [(key x, f x)]) hnd.2 hfr]
    simp

theorem mapM_loop_parseProps (ps : List ElementProperty) (acc : List ElementProperty) :
    List.mapM.loop (fun q => parsePropertyJson q.1 q.2)
        (ps.map (fun p => (p.name, p.toJsonVal))) acc =
      .ok (acc.reverse ++ ps.map ElementProperty.roundTripNorm) := by
  induction ps generalizing acc with
  | nil => simp [List.mapM.loop]
  | cons p rest ih =>
    rw [List.map_cons]
    simp [List.mapM.loop, parsePropertyJson_toJsonVal, ih]

theorem mapM_parseProps (ps : List ElementProperty) :
    (ps.map (fun p => (p.name, p.toJsonVal))).mapM (fun q => parsePropertyJson q.1 q.2) =
      .ok (ps.map ElementProperty.roundTripNorm) := by
  simp [List.mapM, mapM_loop_parseProps]

/-- A serialized element type parses back to its round-trip normalization. -/
theorem elementType_fromJson_toJson (t : ElementType)
    (h : mkElementType t.tagName t.description t.properties = .ok t) :
    ElementType.fromJson t.toJson = .ok t.roundTripNorm := by
  obtain ⟨hck, -⟩ := mkElementType_ok_inv _ _ _ _ h
  have hnd : (t.properties.map ElementProperty.name).Nodup := (check_ok_nodup _ _ _ _ hck).1
  have hfold := foldl_objSet_map ElementProperty.name ElementProperty.toJsonVal
    t.properties [] hnd (by simp)
  cases hd : t.description with
  | none =>
    simp [ElementType.toJson, ElementType.fromJson, hd, objGet, hfold,
      mapM_parseProps, mapM_loop_parseProps, List.mapM]
    exact hd ▸ mkElementType_norm t h
  | some d =>
    simp [ElementType.toJson, ElementType.fromJson, hd, objGet, hfold,
      mapM_parseProps, mapM_loop_parseProps, List.mapM]
    exact hd ▸ mkElementType_norm t h

/-- Round-trip normalization keeps tag names, so the duplicate-tag scan is
blind to it. -/
theorem checkTags_map_norm (seen : List String) (xs : List ElementType) :
    mkMeshSchema.checkTags seen (xs.map ElementType.roundTripNorm) =
      mkMeshSchema.checkTags seen xs := by
  induction xs generalizing seen with
  | nil => rfl
  | cons t rest ih =>
    rw [List.map_cons]
    unfold mkMeshSchema.checkTags
    rw [roundTripNorm_tagName]
    cases hc : seen.contains t.tagName <;> simp [hc, ih]

/-- Element lookup in a normalized schema is the normalized lookup. -/
theorem element_norm (s : MeshSchema) (tag : String) :
    s.roundTripNorm.element tag = (s.element tag).map ElementType.roundTripNorm := by
  unfold MeshSchema.element
  have he : (MeshSchema.roundTripNorm s).elements = s.elements.map ElementType.roundTripNorm :=
    rfl
  rw [he, List.find?_map]
  have hp : ((fun t => t.tagName == tag) ∘ ElementType.roundTripNorm) =
      (fun t : ElementType => t.tagName == tag) := by
    funext t
    simp [Function.comp, roundTripNorm_tagName]
  rw [hp]
  cases s.elements.find? (fun t => t.tagName == tag) <;> rfl

theorem childFold_norm (s : MeshSchema) (tags : List String) :
    tags.foldlM (fun _ t => do let _ ← s.roundTripNorm.element t
                               (.ok () : Except SchemaError Unit)) () =
      tags.foldlM (fun _ t => do let _ ← s.element t
                                 (.ok () : Except SchemaError Unit)) () := by
  induction tags with
  | nil => rfl
  | cons tag rest ih =>
    rw [List.foldlM_cons, List.foldlM_cons, element_norm]
    cases he : s.element tag with
    | error e => simp [he, Except.map]
    | ok t => simp [he, Except.map, ih]

/-- Property validation sees neither the normalization of the property nor
that of the schema. -/
theorem propValidate_norm (s : MeshSchema) (p : ElementProperty) :
    p.roundTripNorm.validate s.roundTripNorm = p.validate s := by
  cases p with
  | value n d t e r => rfl
  | child n d tags o =>
    show (ElementProperty.child n d tags o).validate s.roundTripNorm = _
    unfold ElementProperty.validate
    exact childFold_norm s tags

theorem foldlM_validate_map_norm (s : MeshSchema) (ps : List ElementProperty) :
    (ps.map ElementProperty.roundTripNorm).foldlM
        (fun _ p => p.validate s.roundTripNorm) () =
      ps.foldlM (fun _ p => p.validate s) () := by
  induction ps with
  | nil => rfl
  | cons p rest ih =>
    rw [List.map_cons, List.foldlM_cons, List.foldlM_cons, propValidate_norm]
    cases hv : p.validate s with
    | error e => simp [hv]
    | ok u => cases u; simp [ih]

theorem typeValidate_norm (t : ElementType) (s : MeshSchema) :
    t.roundTripNorm.validate s.roundTripNorm = t.validate s := by
  unfold ElementType.validate
  have hp : t.roundTripNorm.properties = t.properties.map ElementProperty.roundTripNorm := rfl
  rw [hp]
  exact foldlM_validate_map_norm s t.properties

theorem elementsFold_norm (s : MeshSchema) (xs : List ElementType) :
    (xs.map ElementType.roundTripNorm).foldlM
        (fun _ t => t.validate s.roundTripNorm) () =
      xs.foldlM (fun _ t => t.validate s) () := by
  induction xs with
  | nil => rfl
  | cons t rest ih =>
    rw [List.map_cons, List.foldlM_cons, List.foldlM_cons, typeValidate_norm]
    cases hv : t.validate s with
    | error e => simp [hv]
    | ok u => cases u; simp [ih]

/-- The validating constructor accepts the normalized element list of any
schema it accepted, producing the normalized schema. -/
theorem mkMeshSchema_norm (s : MeshSchema)
    (h : mkMeshSchema s.rootTagName s.elements = .ok s) :
    mkMeshSchema s.rootTagName (s.elements.map ElementType.roundTripNorm) =
      .ok s.roundTripNorm := by
  obtain ⟨-, hct, hroot, hval⟩ := mkMeshSchema_ok_inv _ _ _ h
  have hsome : (s.elements.find? (fun t => t.tagName == s.rootTagName)).isSome := by
    rw [List.find?_isSome]
    obtain ⟨t, htm, htag⟩ := List.mem_map.mp hroot
    exact ⟨t, htm, by simp [htag]⟩
  obtain ⟨rt, hrt⟩ := Option.isSome_iff_exists.mp hsome
  have hval' : s.elements.foldlM (fun _ t => t.validate s) () = .ok () := hval
  unfold mkMeshSchema
  rw [checkTags_map_norm, hct]
  simp only [exbind_ok]
  rw [List.find?_map]
  have hp : ((fun t => t.tagName == s.rootTagName) ∘ ElementType.roundTripNorm) =
      (fun t : ElementType => t.tagName == s.rootTagName) := by
    funext t
    simp [Function.comp, roundTripNorm_tagName]
  rw [hp, hrt]
  have hs' : ({ rootTagName := s.rootTagName,
                elements := s.elements.map ElementType.roundTripNorm } : MeshSchema) =
      s.roundTripNorm := rfl
  simp only [Option.map_some', Option.isNone_some, Bool.false_eq_true, if_false, hs',
    elementsFold_norm, hval', exbind_ok, expure_eq]

theorem mapM_loop_fromJson_elements (xs : List ElementType) (acc : List ElementType)
    (hf : ∀ t ∈ xs, ElementType.fromJson t.toJson = .ok t.roundTripNorm) :
    List.mapM.loop (fun p => ElementType.fromJson p.2)
        (xs.map (fun t => (t.tagName, t.toJson))) acc =
      .ok (acc.reverse ++ xs.map ElementType.roundTripNorm) := by
  induction xs generalizing acc with
  | nil => simp [List.mapM.loop]
  | cons t rest ih =>
    rw [List.map_cons]
    simp [List.mapM.loop, hf t (List.mem_cons_self _ _),
      ih _ (fun u hu => hf u (List.mem_cons_of_mem _ hu))]

theorem mapM_fromJson_elements (xs : List ElementType)
    (hf : ∀ t ∈ xs, ElementType.fromJson t.toJson = .ok t.roundTripNorm) :
    (xs.map (fun t => (t.tagName, t.toJson))).mapM (fun p => ElementType.fromJson p.2) =
      .ok (xs.map ElementType.roundTripNorm) := by
  simp [List.mapM, mapM_loop_fromJson_elements xs [] hf]

/-- A serialized valid schema parses back to its round-trip normalization:
`fromJson ∘ toJson` is `roundTripNorm` on schemas whose parts all came out
of the validating constructors. -/
theorem meshSchema_fromJson_toJson (s : MeshSchema)
    (hs : mkMeshSchema s.rootTagName s.elements = .ok s)
    (ht : ∀ t ∈ s.elements, mkElementType t.tagName t.description t.properties = .ok t) :
    MeshSchema.fromJson s.toJson = .ok s.roundTripNorm := by
  obtain ⟨-, hct, hroot, -⟩ := mkMeshSchema_ok_inv _ _ _ hs
  have hndtags : (s.elements.map ElementType.tagName).Nodup := (checkTags_ok_nodup _ _ hct).1
  have hdefs := foldl_objSet_map ElementType.tagName ElementType.toJson s.elements []
    hndtags (by simp)
  have hsome : (s.elements.find? (fun t => t.tagName == s.rootTagName)).isSome := by
    rw [List.find?_isSome]
    obtain ⟨t, htm, htag⟩ := List.mem_map.mp hroot
    exact ⟨t, htm, by simp [htag]⟩
  obtain ⟨rt, hrt⟩ := Option.isSome_iff_exists.mp hsome
  have hf : ∀ t ∈ s.elements, ElementType.fromJson t.toJson = .ok t.roundTripNorm :=
    fun t htm => elementType_fromJson_toJson t (ht t htm)
  have hinner : ∀ rkvs, rt.toJson = Json.obj rkvs →
      MeshSchema.fromJson (Json.obj (rkvs.foldl (fun acc p => objSet acc p.1 p.2)
        [("$root_tag_ref", Json.str ("#/$defs/" ++ s.rootTagName)),
         ("$defs", Json.obj (s.elements.map (fun t => (t.tagName, t.toJson))))])) =
      .ok s.roundTripNorm → MeshSchema.fromJson s.toJson = .ok s.roundTripNorm := by
    intro rkvs hrkvs hmain
    unfold MeshSchema.toJson MeshSchema.root
    rw [hdefs, hrt]
    simp only [List.nil_append]
    rw [hrkvs]
    exact hmain
  cases hrd : rt.description with
  | none =>
    refine hinner
      [("type", Json.str "object"), ("additionalProperties", Json.bool false),
       ("required", Json.arr [Json.str rt.tagName]),
       ("properties", Json.obj [(rt.tagName, Json.obj
          [("type", Json.str "object"), ("additionalProperties", Json.bool false),
           ("required", Json.arr (rt.properties.map (fun p => Json.str p.name))),
           ("properties", Json.obj (rt.properties.foldl
             (fun acc p => objSet acc p.name p.toJsonVal) []))])])]
      (by simp [ElementType.toJson, hrd]) ?_
    simp [MeshSchema.fromJson, objSet, objGet, stripDefsRef_append,
      mapM_loop_fromJson_elements s.elements [] hf, List.mapM, mkMeshSchema_norm s hs]
  | some d =>
    refine hinner
      [("type", Json.str "object"), ("additionalProperties", Json.bool false),
       ("description", Json.str d),
       ("required", Json.arr [Json.str rt.tagName]),
       ("properties", Json.obj [(rt.tagName, Json.obj
          [("type", Json.str "object"), ("additionalProperties", Json.bool false),
           ("required", Json.arr (rt.properties.map (fun p => Json.str p.name))),
           ("properties", Json.obj (rt.properties.foldl
             (fun acc p => objSet acc p.name p.toJsonVal) []))])])]
      (by simp [ElementType.toJson, hrd]) ?_
    simp [MeshSchema.fromJson, objSet, objGet, stripDefsRef_append,
      mapM_loop_fromJson_elements s.elements [] hf, List.mapM, mkMeshSchema_norm s hs]

/-- A non-required enum value property: `required = false`, `enumValues`
present. -/
def enumProp : ElementProperty :=
  .value "kind" none SimpleValue.string (some [.str "todo", .str "done"]) false

/-- An element type whose only property is `enumProp`. -/
def enumEl : ElementType :=
  { tagName := "note", description := none, properties := [enumProp] }

/-- A valid schema whose root element carries the non-required enum
property. -/
def enumSchema : MeshSchema := { rootTagName := "note", elements := [enumEl] }

/-- C8 counterexample to the literal claim: `enumSchema` is accepted by the
validating constructor, yet parsing its serialization returns a schema whose
`kind` property has `required = true` — the required flag of a non-required
enum value property is not preserved by the round trip.  (`ValueProperty.
toJson` emits `{type, enum}` for any enum property, and the reader treats a
bare non-array `type` as required.) -/
theorem c8_enum_required_flip :
    mkMeshSchema "note" [enumEl] = .ok enumSchema ∧
    MeshSchema.fromJson enumSchema.toJson =
      .ok ⟨"note", [⟨"note", none,
        [.value "kind" none SimpleValue.string (some [.str "todo", .str "done"]) true]⟩]⟩ :=
  ⟨rfl, rfl⟩

/-- C8 (corrected): for every schema whose parts came out of the validating
constructors (`mkMeshSchema`, `mkElementType`), `MeshSchema.fromJson` applied
to `MeshSchema.toJson` succeeds and returns `s.roundTripNorm`: the same root
tag, the same element tags in order, and every property with its name and
kind preserved — child properties and enum-free value properties unchanged,
while a value property carrying enum values comes back with
`required = true` regardless of its original flag (see
`ElementProperty.roundTripNorm`).  The claim's "equal required flag" holds
exactly for properties without enum values; `c8_enum_required_flip` refutes
it for the enum case. -/
theorem c8_schema_round_trip (s : MeshSchema)
    (hs : mkMeshSchema s.rootTagName s.elements = .ok s)
    (ht : ∀ t ∈ s.elements, mkElementType t.tagName t.description t.properties = .ok t) :
    MeshSchema.fromJson s.toJson = .ok s.roundTripNorm ∧
    s.roundTripNorm.rootTagName = s.rootTagName ∧
    s.roundTripNorm.elements.map ElementType.tagName =
      s.elements.map ElementType.tagName ∧
    ∀ t ∈ s.elements,
      t.roundTripNorm.properties.map ElementProperty.name =
        t.properties.map ElementProperty.name ∧
      t.roundTripNorm.properties.map ElementProperty.isChild =
        t.properties.map ElementProperty.isChild := by
  refine ⟨meshSchema_fromJson_toJson s hs ht, rfl, ?_, ?_⟩
  · show (s.elements.map ElementType.roundTripNorm).map ElementType.tagName = _
    rw [List.map_map]
    simp [Function.comp, roundTripNorm_tagName]
  · intro t _
    constructor
    · show (t.properties.map ElementProperty.roundTripNorm).map ElementProperty.name = _
      rw [List.map_map]
      simp [Function.comp, roundTripNorm_name]
    · show (t.properties.map ElementProperty.roundTripNorm).map ElementProperty.isChild = _
      rw [List.map_map]
      simp [Function.comp, roundTripNorm_isChild]

/-- C8 witness: the round-trip theorem applied to the demo schema, whose
hypotheses hold by computation. -/
theorem c8_schema_round_trip_witness :
    MeshSchema.fromJson demoSchema.toJson = .ok demoSchema.roundTripNorm ∧
    demoSchema.roundTripNorm.rootTagName = demoSchema.rootTagName ∧
    demoSchema.roundTripNorm.elements.map ElementType.tagName =
      demoSchema.elements.map ElementType.tagName ∧
    ∀ t ∈ demoSchema.elements,
      t.roundTripNorm.properties.map ElementProperty.name =
        t.properties.map ElementProperty.name ∧
      t.roundTripNorm.properties.map ElementProperty.isChild =
        t.properties.map ElementProperty.isChild :=
  c8_schema_round_trip demoSchema rfl (by
    intro t htm
    simp only [demoSchema, List.mem_cons, List.not_mem_nil, or_false] at htm
    rcases htm with rfl | rfl | rfl <;> rfl)

end Meshagent
